import Mathlib

/-! CChess: a shallow embedding of `src/cchess.c`

Bitboards are `uint64_t` values in the source; here they are natural numbers,
and every operation that can leave the 64-bit range is reduced `% 2 ^ 64`
explicitly.  Square `idx = 8 * rank + file` is bit `idx` of a bitboard
(`a1 = 0`, `h1 = 7`, `a8 = 56`, `h8 = 63`).

The global variables of the program become the fields of `State`; a C function
that writes globals becomes a function `State → State`, and a function that
writes through an out-pointer returns the value it leaves there.
-/

namespace CChess

/-! ## Machine arithmetic -/

/-- C `x << n` on a `uint64_t`: undefined (here `none`) for a shift count of 64
or more, otherwise the shifted value truncated to 64 bits. -/
def shl64 (x n : Nat) : Option Nat :=
  if n < 64 then some ((x <<< n) % 2 ^ 64) else none

/-- C `x >> n` on a `uint64_t`: undefined (here `none`) for a shift count of 64
or more. -/
def shr64 (x n : Nat) : Option Nat :=
  if n < 64 then some (x >>> n) else none

/-- C `~x` on a `uint64_t`. -/
def not64 (x : Nat) : Nat := 2 ^ 64 - 1 - x % 2 ^ 64

/-! ## Positional bitwise operations (`cchess.c` lines 39-46)

The macros are used on `uint64_t` operands throughout the program.  The amount
is a natural number: the source forbids negative amounts. -/

/-- `#define NORTH(x, amount) (x) << (8 * (amount))` -/
def NORTH (x amount : Nat) : Option Nat := shl64 x (8 * amount)

/-- `#define SOUTH(x, amount) (x) >> (8 * (amount))` -/
def SOUTH (x amount : Nat) : Option Nat := shr64 x (8 * amount)

/-- `#define WEST(x, amount) (x) >> (amount)` -/
def WEST (x amount : Nat) : Option Nat := shr64 x amount

/-- `#define EAST(x, amount) (x) << (amount)` -/
def EAST (x amount : Nat) : Option Nat := shl64 x amount

/-- `#define NORTH_EAST(x, amount) (x) << (9 * (amount))` -/
def NORTH_EAST (x amount : Nat) : Option Nat := shl64 x (9 * amount)

/-- `#define NORTH_WEST(x, amount) (x) << (7 * (amount))` -/
def NORTH_WEST (x amount : Nat) : Option Nat := shl64 x (7 * amount)

/-- `#define SOUTH_EAST(x, amount) (x) >> (7 * (amount))` -/
def SOUTH_EAST (x amount : Nat) : Option Nat := shr64 x (7 * amount)

/-- `#define SOUTH_WEST(x, amount) (x) >> (9 * (amount))` -/
def SOUTH_WEST (x amount : Nat) : Option Nat := shr64 x (9 * amount)

/-! ## Positions on board (`cchess.c` lines 49-66) -/

def WHITE_SQUARES : Nat := 0x55aa55aa55aa55aa
def BLACK_SQUARES : Nat := 0xaa55aa55aa55aa55
def A_FILE : Nat := 0x101010101010101
def B_FILE : Nat := 0x202020202020202
def C_FILE : Nat := 0x404040404040404
def D_FILE : Nat := 0x808080808080808
def E_FILE : Nat := 0x1010101010101010
def F_FILE : Nat := 0x2020202020202020
def G_FILE : Nat := 0x4040404040404040
def H_FILE : Nat := 0x8080808080808080
def RANK_1 : Nat := 0xff
def RANK_2 : Nat := 0xff00
def RANK_3 : Nat := 0xff0000
def RANK_4 : Nat := 0xff000000
def RANK_5 : Nat := 0xff00000000
def RANK_6 : Nat := 0xff0000000000
def RANK_7 : Nat := 0xff000000000000
def RANK_8 : Nat := 0xff00000000000000

/-! ## Players (`cchess.c` lines 91-92) -/

def PLAYER_WHITE : Int := 1
def PLAYER_BLACK : Int := -1

/-! ## Global state (`cchess.c` lines 93-162) -/

/-- The global variables of the program, in declaration order. -/
structure State where
  _wKing : Nat
  _wQueen : Nat
  _wRooks : Nat
  _wBishops : Nat
  _wKnights : Nat
  _wPawns : Nat
  _wPieces : Nat
  _bKing : Nat
  _bQueen : Nat
  _bRooks : Nat
  _bBishops : Nat
  _bKnights : Nat
  _bPawns : Nat
  _bPieces : Nat
  _enPassant : Nat
  _canCastle : Nat
  _player : Int
  _playingState : Int
  _50MoveRuleCount : Nat
  _board : List Char
deriving DecidableEq

/-- One line of `#` characters of the board picture. -/
def boardBorderLine : String :=
  "  ########################################################\n"

/-- One line of empty cell interiors of the board picture. -/
def boardBlankLine : String :=
  "  #     ##     ##     ##     ##     ##     ##     ##     #\n"

/-- The line of the board picture that carries the eight `O` placeholder cells of
a rank, labelled with the rank's digit. -/
def boardCellLine (label : Char) : String :=
  String.singleton label ++ " #  O  ##  O  ##  O  ##  O  ##  O  ##  O  ##  O  ##  O  #\n"

/-- The four lines of one rank of the board picture. -/
def boardRankBlock (label : Char) : String :=
  boardBorderLine ++ boardBlankLine ++ boardCellLine label ++ boardBlankLine

/-- The initialiser of `char _board[BOARD_STRING_SIZE]`, without the terminating
NUL. -/
def initialBoardString : String :=
  boardRankBlock '8' ++ boardRankBlock '7' ++ boardRankBlock '6' ++ boardRankBlock '5' ++
  boardRankBlock '4' ++ boardRankBlock '3' ++ boardRankBlock '2' ++ boardRankBlock '1' ++
  boardBorderLine ++
  "     A      B      C      D      E      F      G      H\n\n"

/-- The state at program start: C zero-initialises the globals without an
initialiser, and `_board` holds its string initialiser. -/
def zeroState : State where
  _wKing := 0
  _wQueen := 0
  _wRooks := 0
  _wBishops := 0
  _wKnights := 0
  _wPawns := 0
  _wPieces := 0
  _bKing := 0
  _bQueen := 0
  _bRooks := 0
  _bBishops := 0
  _bKnights := 0
  _bPawns := 0
  _bPieces := 0
  _enPassant := 0
  _canCastle := 0
  _player := 0
  _playingState := 0
  _50MoveRuleCount := 0
  _board := initialBoardString.toList ++ [Char.ofNat 0]

/-! ## `init_board` (`cchess.c` lines 282-299) -/

/-- `void init_board()`: the fourteen assignments, in source order. -/
def init_board (s : State) : State :=
  let s := { s with _wKing := RANK_1 &&& E_FILE }
  let s := { s with _wQueen := RANK_1 &&& D_FILE }
  let s := { s with _wRooks := (RANK_1 &&& A_FILE) ||| (RANK_1 &&& H_FILE) }
  let s := { s with _wBishops := (RANK_1 &&& C_FILE) ||| (RANK_1 &&& F_FILE) }
  let s := { s with _wKnights := (RANK_1 &&& B_FILE) ||| (RANK_1 &&& G_FILE) }
  let s := { s with _wPawns := RANK_2 }
  let s := { s with _bKing := RANK_8 &&& E_FILE }
  let s := { s with _bQueen := RANK_8 &&& D_FILE }
  let s := { s with _bRooks := (RANK_8 &&& A_FILE) ||| (RANK_8 &&& H_FILE) }
  let s := { s with _bBishops := (RANK_8 &&& C_FILE) ||| (RANK_8 &&& F_FILE) }
  let s := { s with _bKnights := (RANK_8 &&& B_FILE) ||| (RANK_8 &&& G_FILE) }
  let s := { s with _bPawns := RANK_7 }
  let s := { s with _wPieces :=
    s._wKing ||| s._wQueen ||| s._wRooks ||| s._wBishops ||| s._wKnights ||| s._wPawns }
  { s with _bPieces :=
    s._bKing ||| s._bQueen ||| s._bRooks ||| s._bBishops ||| s._bKnights ||| s._bPawns }

/-! ## Move generation (`cchess.c` lines 301-348) -/

/-- `void gen_PawnMoves(uint64_t *board)`: the value left in `*board`, for a
`board` that does not alias a global.  `none` would be an undefined shift; the
shift counts here are the constants 16 and 8. -/
def gen_PawnMoves (s : State) : Option Nat := do
  let board := 0
  if s._player = PLAYER_WHITE then
    if RANK_2 &&& s._wPawns ≠ 0 then
      let pushed ← NORTH (RANK_2 &&& s._wPawns) 2
      let bAhead ← NORTH (RANK_3 &&& s._bPieces) 1
      let wAhead ← NORTH (RANK_3 &&& s._wPieces) 1
      pure (board |||
        (pushed &&&
          not64 ((RANK_4 &&& s._bPieces) ||| bAhead ||| (RANK_4 &&& s._wPieces) ||| wAhead)))
    else
      pure board
  else
    pure board

/-- `void gen_move(uint64_t *moveBoard, unsigned piece)`: the value left in
`*moveBoard`.  Every `case` of the `switch` is empty, so the initial store of
`0` is what remains. -/
def gen_move (piece : Nat) : Nat :=
  let moveBoard := 0
  match piece with
  | 0 => moveBoard
  | 1 => moveBoard
  | 2 => moveBoard
  | 3 => moveBoard
  | 4 => moveBoard
  | 5 => moveBoard
  | _ => 0

/-! ## Vocabulary of the specification -/

/-- The bitboard whose set bits are exactly the listed square indices. -/
def ofSquares (sqs : List Nat) : Nat :=
  sqs.foldr (fun i acc => 2 ^ i ||| acc) 0

/-- Square `sq` is set in bitboard `b`. -/
def hasSquare (b sq : Nat) : Prop := b.testBit sq = true

instance (b sq : Nat) : Decidable (hasSquare b sq) := by
  unfold hasSquare; infer_instance

/-- The twelve piece-colour bitboards of a state. -/
def pieceBoards (s : State) : List Nat :=
  [s._wKing, s._wQueen, s._wRooks, s._wBishops, s._wKnights, s._wPawns,
   s._bKing, s._bQueen, s._bRooks, s._bBishops, s._bKnights, s._bPawns]

/-- The six white piece bitboards of a state. -/
def whiteBoards (s : State) : List Nat :=
  [s._wKing, s._wQueen, s._wRooks, s._wBishops, s._wKnights, s._wPawns]

/-- The six black piece bitboards of a state. -/
def blackBoards (s : State) : List Nat :=
  [s._bKing, s._bQueen, s._bRooks, s._bBishops, s._bKnights, s._bPawns]

/-- Square `sq` is occupied: set in `_wPieces` or in `_bPieces`. -/
def occupied (s : State) (sq : Nat) : Prop :=
  hasSquare s._wPieces sq ∨ hasSquare s._bPieces sq

instance (s : State) (sq : Nat) : Decidable (occupied s sq) := by
  unfold occupied; infer_instance

/-- Number of set bits among the 64 squares of a bitboard. -/
def popcount64 (b : Nat) : Nat :=
  ((List.range 64).filter (fun i => b.testBit i)).length

/-- The standard starting position with White to move: `init_board` run on the
zero-initialised globals, and `_player` set to `PLAYER_WHITE`. -/
def startWhite : State := { init_board zeroState with _player := PLAYER_WHITE }

/-- The standard starting position with Black to move. -/
def startBlack : State := { init_board zeroState with _player := PLAYER_BLACK }

/-- The union of a list of bitboards. -/
def unionOf (bs : List Nat) : Nat :=
  bs.foldr (fun b acc => b ||| acc) 0

/-- Two bitboards share no square. -/
def noCommonSquare (a b : Nat) : Prop :=
  ∀ sq, ¬ (hasSquare a sq ∧ hasSquare b sq)

/-- Every square of `y` among the 64 lies exactly one file east of a square of
`x`. -/
def oneFileEastOf (x y : Nat) : Prop :=
  ∀ i, i < 64 → hasSquare y i → ∃ j, j < 64 ∧ hasSquare x j ∧ i % 8 = j % 8 + 1

/-- Every square of `y` among the 64 lies exactly one file west of a square of
`x`. -/
def oneFileWestOf (x y : Nat) : Prop :=
  ∀ i, i < 64 → hasSquare y i → ∃ j, j < 64 ∧ hasSquare x j ∧ i % 8 + 1 = j % 8

/-- The eight directions of the positional macros. -/
inductive Direction where
  | north
  | south
  | west
  | east
  | northEast
  | northWest
  | southEast
  | southWest
deriving DecidableEq, Repr

/-- The positional macro of a direction. -/
def Direction.shift : Direction → Nat → Nat → Option Nat
  | .north => NORTH
  | .south => SOUTH
  | .west => WEST
  | .east => EAST
  | .northEast => NORTH_EAST
  | .northWest => NORTH_WEST
  | .southEast => SOUTH_EAST
  | .southWest => SOUTH_WEST

/-- The documented legal bound of the amount: the number of steps from the square
at file `f`, rank `r` to the edge of the board in a direction. -/
def Direction.legalBound : Direction → Nat → Nat → Nat
  | .north, _, r => 7 - r
  | .south, _, r => r
  | .west, f, _ => f
  | .east, f, _ => 7 - f
  | .northEast, f, r => min (7 - f) (7 - r)
  | .northWest, f, r => min f (7 - r)
  | .southEast, f, r => min (7 - f) r
  | .southWest, f, r => min f r

/-- The index of the square `a` steps away from file `f`, rank `r` in a
direction. -/
def Direction.stepSquare : Direction → Nat → Nat → Nat → Nat
  | .north, f, r, a => 8 * (r + a) + f
  | .south, f, r, a => 8 * (r - a) + f
  | .west, f, r, a => 8 * r + (f - a)
  | .east, f, r, a => 8 * r + (f + a)
  | .northEast, f, r, a => 8 * (r + a) + (f + a)
  | .northWest, f, r, a => 8 * (r + a) + (f - a)
  | .southEast, f, r, a => 8 * (r - a) + (f + a)
  | .southWest, f, r, a => 8 * (r - a) + (f - a)

/-! ## Bit helpers (`cchess.c` lines 164-175)

The literals `1` and `~1u` in these functions have type `int` and
`unsigned int` (32 bits), so the shifts are 32-bit shifts. -/

/-- C `a << n` for a non-negative `int` value `a`: defined only for a shift count
below 32 whose result is representable in `int`. -/
def shlInt (a n : Nat) : Option Nat :=
  if n < 32 ∧ a <<< n < 2 ^ 31 then some (a <<< n) else none

/-- C `a << n` for an `unsigned int` value `a`: undefined for a shift count of 32
or more, otherwise truncated to 32 bits. -/
def shlUInt (a n : Nat) : Option Nat :=
  if n < 32 then some ((a <<< n) % 2 ^ 32) else none

/-- C `~a` on an `unsigned int`. -/
def not32 (a : Nat) : Nat := 2 ^ 32 - 1 - a % 2 ^ 32

/-- `void clearBitPos(uint64_t *var, uint64_t x)`: the value left in `*var` by
`*var &= (~1u << x)`; the `unsigned int` mask is zero-extended to 64 bits. -/
def clearBitPos (var x : Nat) : Option Nat := do
  let mask ← shlUInt (not32 1) x
  pure (var &&& mask)

/-- `void setBitPos(uint64_t *var, uint64_t x)`: the value left in `*var` by
`*var |= (1 << x)`. -/
def setBitPos (var x : Nat) : Option Nat := do
  let mask ← shlInt 1 x
  pure (var ||| mask)

/-- `uint64_t getBitPos(const uint64_t *var, uint64_t x)`: the value of
`*var & (1 << x)`. -/
def getBitPos (var x : Nat) : Option Nat := do
  let mask ← shlInt 1 x
  pure (var &&& mask)

/-! ## Board string (`cchess.c` lines 18, 68-81, 177-280) -/

def BOARD_STRING_SIZE : Nat := 2004 + 1
def S_HORIZONTAL_INC : Nat := 7
def S_VERTICAL_INC : Nat := 236
def S_A8 : Nat := 123
def S_A7 : Nat := S_A8 + S_VERTICAL_INC
def S_A6 : Nat := S_A8 + 2 * S_VERTICAL_INC
def S_A3 : Nat := S_A8 + 5 * S_VERTICAL_INC
def S_A2 : Nat := S_A8 + 6 * S_VERTICAL_INC
def S_A1 : Nat := S_A8 + 7 * S_VERTICAL_INC
def S_H1 : Nat := 1824

/-- `#define S_OPEN_SQUARE ' '` -/
def S_OPEN_SQUARE : Char := ' '

/-- The array `ptrBlackPieces` of `init_board_string`, dereferenced. -/
def ptrBlackPieces (s : State) : List Nat :=
  [s._bPawns, s._bRooks, s._bKnights, s._bBishops, s._bQueen, s._bKing]

/-- The array `ptrWhitePieces` of `init_board_string`, dereferenced. -/
def ptrWhitePieces (s : State) : List Nat :=
  [s._wPawns, s._wRooks, s._wKnights, s._wBishops, s._wQueen, s._wKing]

/-- The `switch (k)` of the black pieces, with
`enum Piece { Pawn = 0, Rook, Knight, Bishop, Queen, King }`. -/
def blackLetter (k : Nat) : Char :=
  match k with
  | 0 => 'p'
  | 1 => 'r'
  | 2 => 'n'
  | 3 => 'b'
  | 4 => 'q'
  | 5 => 'k'
  | _ => '?'

/-- The `switch (k)` of the white pieces. -/
def whiteLetter (k : Nat) : Char :=
  match k with
  | 0 => 'P'
  | 1 => 'R'
  | 2 => 'N'
  | 3 => 'B'
  | 4 => 'Q'
  | 5 => 'K'
  | _ => '?'

/-- The body of a cell: `c = S_OPEN_SQUARE; for (k = 0; k < 6; ++k) if
(*ptr[k] & square) c = letter(k);`, giving the final `c`. -/
def cellChar (ptrs : List Nat) (letter : Nat → Char) (square : Nat) : Char :=
  (List.range 6).foldl
    (fun c k => if ptrs.getD k 0 &&& square ≠ 0 then letter k else c) S_OPEN_SQUARE

/-- The store `_board[j] = c`; `none` for an index outside the array. -/
def writeChar (board : List Char) (j : Nat) (c : Char) : Option (List Char) :=
  if j < board.length then some (board.set j c) else none

/-- The loop `for (v = start; v <= hi; v = v + inc) body`, passing the state `st`
through the iterations; `none` when an iteration fails or the fuel is used
up. -/
def forLoop {σ : Type} (inc hi : Nat) (body : Nat → σ → Option σ) :
    Nat → Nat → σ → Option σ
  | 0, _, _ => none
  | fuel + 1, v, st =>
    if v ≤ hi then (body v st).bind (forLoop inc hi body fuel (v + inc)) else some st

/-- The body of the inner loop of a row of pieces, on the pair of `_board` and
`square`: choose `c`, `_board[j] = c; square = EAST(square, 1);`. -/
def pieceCell (ptrs : List Nat) (letter : Nat → Char) (j : Nat) (st : List Char × Nat) :
    Option (List Char × Nat) := do
  let c := cellChar ptrs letter st.2
  let board ← writeChar st.1 j c
  let square ← EAST st.2 1
  pure (board, square)

/-- The inner loop of a row of pieces, `for (j = i; j <= i + S_HORIZONTAL_INC * 7;
j = j + S_HORIZONTAL_INC)`. -/
def pieceRow (ptrs : List Nat) (letter : Nat → Char) (i : Nat) (st : List Char × Nat) :
    Option (List Char × Nat) :=
  forLoop S_HORIZONTAL_INC (i + S_HORIZONTAL_INC * 7) (pieceCell ptrs letter) 9 i st

/-- The inner loop of a row of open squares. -/
def openRow (i : Nat) (board : List Char) : Option (List Char) :=
  forLoop S_HORIZONTAL_INC (i + S_HORIZONTAL_INC * 7)
    (fun j board => writeChar board j S_OPEN_SQUARE) 9 i board

/-- The body of the outer loop of a block of piece rows: the inner loop, then
`square = SOUTH(first, 1);` with `first` the macro `A8` or `A2`. -/
def pieceRowStep (ptrs : List Nat) (letter : Nat → Char) (first : Nat) (i : Nat)
    (st : List Char × Nat) : Option (List Char × Nat) := do
  let st ← pieceRow ptrs letter i st
  let square ← SOUTH first 1
  pure (st.1, square)

/-- `void init_board_string()`: the three loop nests in source order, with
`A8 = 1ull << (8 * 7)` and `A2 = 1ull << 8`. -/
def init_board_string (s : State) : Option State := do
  let A8 ← shl64 1 (8 * 7)
  let A2 ← shl64 1 8
  let square := A8
  let black ← forLoop S_VERTICAL_INC S_A7
    (pieceRowStep (ptrBlackPieces s) blackLetter A8) 3 S_A8 (s._board, square)
  let board ← forLoop S_VERTICAL_INC S_A3 openRow 5 S_A6 black.1
  let square := A2
  let white ← forLoop S_VERTICAL_INC S_A1
    (pieceRowStep (ptrWhitePieces s) whiteLetter A2) 3 S_A2 (board, square)
  pure { s with _board := white.1 }

/-! ## Vocabulary of the masks and of the board picture -/

/-- The eight file masks, `A_FILE` to `H_FILE`. -/
def fileMasks : List Nat :=
  [A_FILE, B_FILE, C_FILE, D_FILE, E_FILE, F_FILE, G_FILE, H_FILE]

/-- The eight rank masks, `RANK_1` to `RANK_8`. -/
def rankMasks : List Nat :=
  [RANK_1, RANK_2, RANK_3, RANK_4, RANK_5, RANK_6, RANK_7, RANK_8]

/-- The index in `_board` of the cell of the square at file `f`, rank `r`. -/
def cellIndex (f r : Nat) : Nat := 123 + 236 * (7 - r) + 7 * f

/-- Character `c` is the picture of square `sq`: the letter of the piece standing
on it, or a blank if no piece stands on it. -/
def showsSquare (s : State) (sq : Nat) (c : Char) : Prop :=
  (hasSquare s._bPawns sq → c = 'p') ∧ (hasSquare s._bRooks sq → c = 'r') ∧
  (hasSquare s._bKnights sq → c = 'n') ∧ (hasSquare s._bBishops sq → c = 'b') ∧
  (hasSquare s._bQueen sq → c = 'q') ∧ (hasSquare s._bKing sq → c = 'k') ∧
  (hasSquare s._wPawns sq → c = 'P') ∧ (hasSquare s._wRooks sq → c = 'R') ∧
  (hasSquare s._wKnights sq → c = 'N') ∧ (hasSquare s._wBishops sq → c = 'B') ∧
  (hasSquare s._wQueen sq → c = 'Q') ∧ (hasSquare s._wKing sq → c = 'K') ∧
  ((∀ b, b ∈ pieceBoards s → ¬ hasSquare b sq) → c = ' ')

/-- All black pieces stand on ranks 7-8: no black bitboard has a square below
index 48. -/
def blackOnHomeRanks (s : State) : Prop :=
  ∀ b, b ∈ blackBoards s → ∀ sq, hasSquare b sq → 48 ≤ sq

/-- All white pieces stand on ranks 1-2: every square of a white bitboard has an
index below 16. -/
def whiteOnHomeRanks (s : State) : Prop :=
  ∀ b, b ∈ whiteBoards s → ∀ sq, hasSquare b sq → sq < 16

/-- A sequence of stores into a character array, oldest first. -/
def writeCells (board : List Char) (ws : List (Nat × Char)) : List Char :=
  ws.foldl (fun b w => b.set w.1 w.2) board

/-- The character `init_board_string` stores for the cell in row `k` from the top
(rank `8 - k`) and file `f`. -/
def storedChar (s : State) (k f : Nat) : Char :=
  if k < 2 then cellChar (ptrBlackPieces s) blackLetter (2 ^ (8 * (7 - k) + f))
  else if k < 6 then S_OPEN_SQUARE
  else cellChar (ptrWhitePieces s) whiteLetter (2 ^ (8 * (7 - k) + f))

/-- The 64 stores of `init_board_string`, in the order the code makes them. -/
def boardStores (s : State) : List (Nat × Char) :=
  (List.range 8).flatMap fun k =>
    (List.range 8).map fun f => (123 + 236 * k + 7 * f, storedChar s k f)

/-- The eight stores of a row of pieces whose first cell is at index `i` and
shows square `q`. -/
def rowStores (ptrs : List Nat) (letter : Nat → Char) (i q : Nat) : List (Nat × Char) :=
  (List.range 8).map fun f => (i + 7 * f, cellChar ptrs letter (2 ^ (q + f) % 2 ^ 64))

/-- The eight stores of a row of open squares whose first cell is at index `i`. -/
def openStores (i : Nat) : List (Nat × Char) :=
  (List.range 8).map fun f => (i + 7 * f, S_OPEN_SQUARE)

end CChess

namespace CChess

/-! ## Bit-level lemmas -/

theorem hasSquare_ofSquares (sqs : List Nat) (sq : Nat) :
    hasSquare (ofSquares sqs) sq ↔ sq ∈ sqs := by
  induction sqs with
  | nil => simp [ofSquares, hasSquare]
  | cons a l ih =>
    have h : ofSquares (a :: l) = 2 ^ a ||| ofSquares l := rfl
    unfold hasSquare at ih ⊢
    rw [h, Nat.testBit_or, Bool.or_eq_true, ih, Nat.testBit_two_pow]
    simp [eq_comm]

theorem hasSquare_unionOf (bs : List Nat) (sq : Nat) :
    hasSquare (unionOf bs) sq ↔ ∃ b, b ∈ bs ∧ hasSquare b sq := by
  induction bs with
  | nil => simp [unionOf, hasSquare]
  | cons a l ih =>
    have h : unionOf (a :: l) = a ||| unionOf l := rfl
    unfold hasSquare at ih ⊢
    rw [h, Nat.testBit_or, Bool.or_eq_true, ih]
    simp

theorem noCommonSquare_of_land (a b : Nat) (h : a &&& b = 0) : noCommonSquare a b := by
  intro sq hsq
  have h2 : (a &&& b).testBit sq = true := by
    rw [Nat.testBit_and, hsq.1, hsq.2]; rfl
  rw [h] at h2
  simp at h2

/-! ## The starting position -/

theorem pieceBoards_init_board (s : State) :
    pieceBoards (init_board s) =
      [0x10, 0x8, 0x81, 0x24, 0x42, 0xff00,
       0x1000000000000000, 0x800000000000000, 0x8100000000000000,
       0x2400000000000000, 0x4200000000000000, 0xff000000000000] := rfl

theorem wPieces_init_board (s : State) : (init_board s)._wPieces = 0xffff := by
  simp only [init_board]
  decide

theorem bPieces_init_board (s : State) :
    (init_board s)._bPieces = 0xffff000000000000 := by
  simp only [init_board]
  decide

theorem one_square_unique (k : Nat) : ∃! sq, hasSquare (2 ^ k) sq := by
  refine ⟨k, Nat.testBit_two_pow_self, ?_⟩
  intro y hy
  unfold hasSquare at hy
  rw [Nat.testBit_two_pow] at hy
  exact (of_decide_eq_true hy).symm

/-- C1: from every prior state, `init_board` leaves the twelve piece bitboards
equal to the standard starting position under `idx = 8 * rank + file`. -/
theorem init_board_standard_position (s : State) :
    (init_board s)._wKing = ofSquares [4] ∧
    (init_board s)._wQueen = ofSquares [3] ∧
    (init_board s)._wRooks = ofSquares [0, 7] ∧
    (init_board s)._wBishops = ofSquares [2, 5] ∧
    (init_board s)._wKnights = ofSquares [1, 6] ∧
    (init_board s)._wPawns = ofSquares [8, 9, 10, 11, 12, 13, 14, 15] ∧
    (init_board s)._bKing = ofSquares [60] ∧
    (init_board s)._bQueen = ofSquares [59] ∧
    (init_board s)._bRooks = ofSquares [56, 63] ∧
    (init_board s)._bBishops = ofSquares [58, 61] ∧
    (init_board s)._bKnights = ofSquares [57, 62] ∧
    (init_board s)._bPawns = ofSquares [48, 49, 50, 51, 52, 53, 54, 55] :=
  ⟨rfl, rfl, rfl, rfl, rfl, rfl, rfl, rfl, rfl, rfl, rfl, rfl⟩

/-- C4: in the state produced by `init_board`, the twelve piece-colour bitboards
are pairwise disjoint: no square is set in two of them. -/
theorem init_board_no_overlap (s : State) :
    (pieceBoards (init_board s)).Pairwise noCommonSquare := by
  have h : (pieceBoards (init_board s)).Pairwise (fun a b => a &&& b = 0) := by
    rw [pieceBoards_init_board]
    decide
  exact h.imp (fun {a b} hab => noCommonSquare_of_land a b hab)

/-- C5: in the state produced by `init_board`, `_wPieces` is the union of the six
white piece bitboards, `_bPieces` the union of the six black ones, and
`_wPieces | _bPieces` the union of all twelve. -/
theorem init_board_aggregates (s : State) :
    (init_board s)._wPieces = unionOf (whiteBoards (init_board s)) ∧
    (init_board s)._bPieces = unionOf (blackBoards (init_board s)) ∧
    (init_board s)._wPieces ||| (init_board s)._bPieces
      = unionOf (pieceBoards (init_board s)) := by
  rw [pieceBoards_init_board, wPieces_init_board, bPieces_init_board]
  simp only [init_board, whiteBoards, blackBoards]
  decide

/-- C6: in the state produced by `init_board`, each colour's king bitboard has
exactly one set bit. -/
theorem init_board_one_king_each (s : State) :
    (∃! sq, hasSquare (init_board s)._wKing sq) ∧
    (∃! sq, hasSquare (init_board s)._bKing sq) := by
  have hw : (init_board s)._wKing = 2 ^ 4 := rfl
  have hb : (init_board s)._bKing = 2 ^ 60 := rfl
  rw [hw, hb]
  exact ⟨one_square_unique 4, one_square_unique 60⟩

/-! ## Positional shifts -/

theorem shl64_two_pow (k n : Nat) (h : k + n < 64) :
    shl64 (2 ^ k) n = some (2 ^ (k + n)) := by
  have hn : n < 64 := by omega
  have hlt : 2 ^ (k + n) < 2 ^ 64 := Nat.pow_lt_pow_right (by decide) h
  simp only [shl64, if_pos hn, Nat.shiftLeft_eq, ← Nat.pow_add, Nat.mod_eq_of_lt hlt]

theorem shr64_two_pow (k n : Nat) (h : n ≤ k) (hn : n < 64) :
    shr64 (2 ^ k) n = some (2 ^ (k - n)) := by
  simp only [shr64, if_pos hn, Nat.shiftRight_eq_div_pow, Nat.pow_div h (by decide : 0 < 2)]

/-- C3: for the square at file `f`, rank `r` and an amount within the documented
legal bound of a direction, the direction's macro maps the single-square bitboard
to the single-square bitboard of the square `a` steps away; the bounds for H8 are
0/7/0/0 (NE/SW/NW/SE) and for B7 1/1/1/6 (NE/NW/SW/SE). -/
theorem shift_single_square_within_bound (d : Direction) (f r a : Nat)
    (hf : f < 8) (hr : r < 8) (ha : a ≤ d.legalBound f r) :
    d.shift (2 ^ (8 * r + f)) a = some (2 ^ d.stepSquare f r a) ∧
    d.stepSquare f r a < 64 ∧
    (Direction.northEast.legalBound 7 7 = 0 ∧ Direction.southWest.legalBound 7 7 = 7 ∧
      Direction.northWest.legalBound 7 7 = 0 ∧ Direction.southEast.legalBound 7 7 = 0) ∧
    (Direction.northEast.legalBound 1 6 = 1 ∧ Direction.northWest.legalBound 1 6 = 1 ∧
      Direction.southWest.legalBound 1 6 = 1 ∧ Direction.southEast.legalBound 1 6 = 6) := by
  refine ⟨?_, ?_, by decide, by decide⟩
  · cases d <;> simp only [Direction.legalBound, Nat.le_min] at ha <;>
      simp only [Direction.shift, Direction.stepSquare, NORTH, SOUTH, WEST, EAST,
        NORTH_EAST, NORTH_WEST, SOUTH_EAST, SOUTH_WEST]
    · rw [shl64_two_pow _ _ (by omega)]; congr 2; omega
    · rw [shr64_two_pow _ _ (by omega) (by omega)]; congr 2; omega
    · rw [shr64_two_pow _ _ (by omega) (by omega)]; congr 2; omega
    · rw [shl64_two_pow _ _ (by omega)]; congr 2; omega
    · rw [shl64_two_pow _ _ (by omega)]; congr 2; omega
    · rw [shl64_two_pow _ _ (by omega)]; congr 2; omega
    · rw [shr64_two_pow _ _ (by omega) (by omega)]; congr 2; omega
    · rw [shr64_two_pow _ _ (by omega) (by omega)]; congr 2; omega
  · cases d <;> simp only [Direction.legalBound, Nat.le_min] at ha <;>
      simp only [Direction.stepSquare] <;> omega

theorem shift_single_square_within_bound_witness :
    (1 < 8 ∧ 6 < 8 ∧ 6 ≤ Direction.southEast.legalBound 1 6) ∧
    Direction.southEast.shift (2 ^ (8 * 6 + 1)) 6
      = some (2 ^ Direction.southEast.stepSquare 1 6 6) ∧
    Direction.southEast.stepSquare 1 6 6 < 64 ∧
    (Direction.northEast.legalBound 7 7 = 0 ∧ Direction.southWest.legalBound 7 7 = 7 ∧
      Direction.northWest.legalBound 7 7 = 0 ∧ Direction.southEast.legalBound 7 7 = 0) ∧
    (Direction.northEast.legalBound 1 6 = 1 ∧ Direction.northWest.legalBound 1 6 = 1 ∧
      Direction.southWest.legalBound 1 6 = 1 ∧ Direction.southEast.legalBound 1 6 = 6) :=
  ⟨by decide,
    shift_single_square_within_bound Direction.southEast 1 6 6 (by decide) (by decide)
      (by decide)⟩

theorem lt_64_of_hasSquare (x j : Nat) (hx : x < 2 ^ 64) (h : hasSquare x j) : j < 64 := by
  by_contra hj
  have h1 : 2 ^ 64 ≤ 2 ^ j := Nat.pow_le_pow_right (by decide) (by omega)
  have h2 : x.testBit j = false := Nat.testBit_lt_two_pow (by omega)
  unfold hasSquare at h
  rw [h2] at h
  exact Bool.noConfusion h

theorem H_FILE_hasSquare : ∀ j, j < 64 → (hasSquare H_FILE j ↔ j % 8 = 7) := by
  decide

theorem A_FILE_hasSquare : ∀ j, j < 64 → (hasSquare A_FILE j ↔ j % 8 = 0) := by
  decide

theorem not_on_file_of_land (x m j : Nat) (h : x &&& m = 0) (hx : hasSquare x j) :
    ¬ hasSquare m j := fun hm => noCommonSquare_of_land x m h j ⟨hx, hm⟩

theorem hasSquare_shl64 (x n y i : Nat) (h : shl64 x n = some y) (hi : i < 64)
    (hy : hasSquare y i) : n ≤ i ∧ hasSquare x (i - n) := by
  unfold shl64 at h
  split at h
  · cases h
    unfold hasSquare at hy ⊢
    rw [Nat.testBit_mod_two_pow, Nat.testBit_shiftLeft] at hy
    simpa [hi] using hy
  · cases h

theorem hasSquare_shr64 (x n y i : Nat) (h : shr64 x n = some y)
    (hy : hasSquare y i) : hasSquare x (n + i) := by
  unfold shr64 at h
  split at h
  · cases h
    unfold hasSquare at hy ⊢
    rwa [Nat.testBit_shiftRight] at hy
  · cases h

theorem eastward_of_shl64 (x n : Nat) (hn : n < 64) (hmod : n % 8 = 1)
    (hH : x &&& H_FILE = 0) : ∃ y, shl64 x n = some y ∧ oneFileEastOf x y := by
  refine ⟨(x <<< n) % 2 ^ 64, by simp [shl64, hn], ?_⟩
  intro i hi hy
  obtain ⟨hle, hx⟩ := hasSquare_shl64 x n _ i (by simp [shl64, hn]) hi hy
  have hj : i - n < 64 := by omega
  have hnot := not_on_file_of_land x H_FILE (i - n) hH hx
  rw [H_FILE_hasSquare _ hj] at hnot
  exact ⟨i - n, hj, hx, by omega⟩

theorem eastward_of_shr64 (x n : Nat) (hx : x < 2 ^ 64) (hn : n < 64) (hmod : n % 8 = 7)
    (hH : x &&& H_FILE = 0) : ∃ y, shr64 x n = some y ∧ oneFileEastOf x y := by
  refine ⟨x >>> n, by simp [shr64, hn], ?_⟩
  intro i _ hy
  have hxj := hasSquare_shr64 x n _ i (by simp [shr64, hn]) hy
  have hj : n + i < 64 := lt_64_of_hasSquare x _ hx hxj
  have hnot := not_on_file_of_land x H_FILE (n + i) hH hxj
  rw [H_FILE_hasSquare _ hj] at hnot
  exact ⟨n + i, hj, hxj, by omega⟩

theorem westward_of_shl64 (x n : Nat) (hn : n < 64) (hmod : n % 8 = 7)
    (hA : x &&& A_FILE = 0) : ∃ y, shl64 x n = some y ∧ oneFileWestOf x y := by
  refine ⟨(x <<< n) % 2 ^ 64, by simp [shl64, hn], ?_⟩
  intro i hi hy
  obtain ⟨hle, hx⟩ := hasSquare_shl64 x n _ i (by simp [shl64, hn]) hi hy
  have hj : i - n < 64 := by omega
  have hnot := not_on_file_of_land x A_FILE (i - n) hA hx
  rw [A_FILE_hasSquare _ hj] at hnot
  exact ⟨i - n, hj, hx, by omega⟩

theorem westward_of_shr64 (x n : Nat) (hx : x < 2 ^ 64) (hn : n < 64) (hmod : n % 8 = 1)
    (hA : x &&& A_FILE = 0) : ∃ y, shr64 x n = some y ∧ oneFileWestOf x y := by
  refine ⟨x >>> n, by simp [shr64, hn], ?_⟩
  intro i _ hy
  have hxj := hasSquare_shr64 x n _ i (by simp [shr64, hn]) hy
  have hj : n + i < 64 := lt_64_of_hasSquare x _ hx hxj
  have hnot := not_on_file_of_land x A_FILE (n + i) hA hxj
  rw [A_FILE_hasSquare _ hj] at hnot
  exact ⟨n + i, hj, hxj, by omega⟩

theorem not_oneFileEastOf_of_file_a (x y i : Nat) (hi : i < 64) (hy : hasSquare y i)
    (h0 : i % 8 = 0) : ¬ oneFileEastOf x y := by
  intro h
  obtain ⟨j, _, _, hj⟩ := h i hi hy
  omega

theorem not_oneFileWestOf_of_file_h (x y i : Nat) (hi : i < 64) (hy : hasSquare y i)
    (h7 : i % 8 = 7) : ¬ oneFileWestOf x y := by
  intro h
  obtain ⟨j, _, _, hj⟩ := h i hi hy
  omega

/-- C2 (as stated, refuted): the one-step macros are plain shifts, so a square on
file H is carried onto file A by each eastward shift and a square on file A onto
file H by each westward shift: h1 goes to a2 under `EAST` and to a3 under
`NORTH_EAST`, h2 to a2 under `SOUTH_EAST`, a2 to h1 under `WEST`, a1 to h1 under
`NORTH_WEST` and a3 to h1 under `SOUTH_WEST`. -/
theorem one_step_shifts_wrap :
    (EAST (2 ^ 7) 1 = some (2 ^ 8) ∧ ¬ oneFileEastOf (2 ^ 7) (2 ^ 8)) ∧
    (NORTH_EAST (2 ^ 7) 1 = some (2 ^ 16) ∧ ¬ oneFileEastOf (2 ^ 7) (2 ^ 16)) ∧
    (SOUTH_EAST (2 ^ 15) 1 = some (2 ^ 8) ∧ ¬ oneFileEastOf (2 ^ 15) (2 ^ 8)) ∧
    (WEST (2 ^ 8) 1 = some (2 ^ 7) ∧ ¬ oneFileWestOf (2 ^ 8) (2 ^ 7)) ∧
    (NORTH_WEST (2 ^ 0) 1 = some (2 ^ 7) ∧ ¬ oneFileWestOf (2 ^ 0) (2 ^ 7)) ∧
    (SOUTH_WEST (2 ^ 16) 1 = some (2 ^ 7) ∧ ¬ oneFileWestOf (2 ^ 16) (2 ^ 7)) :=
  ⟨⟨by decide, not_oneFileEastOf_of_file_a _ _ 8 (by decide) (by decide) (by decide)⟩,
   ⟨by decide, not_oneFileEastOf_of_file_a _ _ 16 (by decide) (by decide) (by decide)⟩,
   ⟨by decide, not_oneFileEastOf_of_file_a _ _ 8 (by decide) (by decide) (by decide)⟩,
   ⟨by decide, not_oneFileWestOf_of_file_h _ _ 7 (by decide) (by decide) (by decide)⟩,
   ⟨by decide, not_oneFileWestOf_of_file_h _ _ 7 (by decide) (by decide) (by decide)⟩,
   ⟨by decide, not_oneFileWestOf_of_file_h _ _ 7 (by decide) (by decide) (by decide)⟩⟩

/-- C2 (amended): for a 64-bit bitboard with no square on file H, every square of
its one-step `EAST`, `NORTH_EAST` and `SOUTH_EAST` shift lies exactly one file
east of a square of the bitboard; with no square on file A, every square of its
one-step `WEST`, `NORTH_WEST` and `SOUTH_WEST` shift lies exactly one file west
of one. -/
theorem one_step_shifts_edge_safe_off_edge (x : Nat) (hx : x < 2 ^ 64) :
    (x &&& H_FILE = 0 →
      (∃ y, EAST x 1 = some y ∧ oneFileEastOf x y) ∧
      (∃ y, NORTH_EAST x 1 = some y ∧ oneFileEastOf x y) ∧
      (∃ y, SOUTH_EAST x 1 = some y ∧ oneFileEastOf x y)) ∧
    (x &&& A_FILE = 0 →
      (∃ y, WEST x 1 = some y ∧ oneFileWestOf x y) ∧
      (∃ y, NORTH_WEST x 1 = some y ∧ oneFileWestOf x y) ∧
      (∃ y, SOUTH_WEST x 1 = some y ∧ oneFileWestOf x y)) := by
  constructor
  · intro hH
    exact ⟨eastward_of_shl64 x 1 (by decide) (by decide) hH,
      eastward_of_shl64 x (9 * 1) (by decide) (by decide) hH,
      eastward_of_shr64 x (7 * 1) hx (by decide) (by decide) hH⟩
  · intro hA
    exact ⟨westward_of_shr64 x 1 hx (by decide) (by decide) hA,
      westward_of_shl64 x (7 * 1) (by decide) (by decide) hA,
      westward_of_shr64 x (9 * 1) hx (by decide) (by decide) hA⟩

theorem one_step_shifts_edge_safe_off_edge_witness :
    (0x7e7e7e7e7e7e7e7e < 2 ^ 64 ∧ 0x7e7e7e7e7e7e7e7e &&& H_FILE = 0 ∧
      0x7e7e7e7e7e7e7e7e &&& A_FILE = 0) ∧
    ((∃ y, EAST 0x7e7e7e7e7e7e7e7e 1 = some y ∧ oneFileEastOf 0x7e7e7e7e7e7e7e7e y) ∧
      (∃ y, NORTH_EAST 0x7e7e7e7e7e7e7e7e 1 = some y ∧ oneFileEastOf 0x7e7e7e7e7e7e7e7e y) ∧
      (∃ y, SOUTH_EAST 0x7e7e7e7e7e7e7e7e 1 = some y ∧ oneFileEastOf 0x7e7e7e7e7e7e7e7e y)) ∧
    ((∃ y, WEST 0x7e7e7e7e7e7e7e7e 1 = some y ∧ oneFileWestOf 0x7e7e7e7e7e7e7e7e y) ∧
      (∃ y, NORTH_WEST 0x7e7e7e7e7e7e7e7e 1 = some y ∧ oneFileWestOf 0x7e7e7e7e7e7e7e7e y) ∧
      (∃ y, SOUTH_WEST 0x7e7e7e7e7e7e7e7e 1 = some y ∧ oneFileWestOf 0x7e7e7e7e7e7e7e7e y)) :=
  ⟨by decide,
    (one_step_shifts_edge_safe_off_edge 0x7e7e7e7e7e7e7e7e (by decide)).1 (by decide),
    (one_step_shifts_edge_safe_off_edge 0x7e7e7e7e7e7e7e7e (by decide)).2 (by decide)⟩

/-! ## Pawn move generation -/

theorem testBit_not64 (x i : Nat) (hi : i < 64) :
    (not64 x).testBit i = !x.testBit i := by
  have hlt : x % 2 ^ 64 < 2 ^ 64 := Nat.mod_lt _ (by decide)
  have h : not64 x = 2 ^ 64 - (x % 2 ^ 64 + 1) := by unfold not64; omega
  rw [h, Nat.testBit_two_pow_sub_succ hlt, Nat.testBit_mod_two_pow]
  simp [hi]

theorem testBit_shl64_value (x n i : Nat) (hi : i < 64) (hn : n ≤ i) :
    ((x <<< n) % 2 ^ 64).testBit i = x.testBit (i - n) := by
  rw [Nat.testBit_mod_two_pow, Nat.testBit_shiftLeft]
  simp [hi, hn]

theorem RANK_2_testBit : ∀ f, f < 8 → RANK_2.testBit (8 + f) = true := by decide

theorem RANK_3_testBit : ∀ f, f < 8 → RANK_3.testBit (16 + f) = true := by decide

theorem RANK_4_testBit : ∀ f, f < 8 → RANK_4.testBit (24 + f) = true := by decide

theorem gen_PawnMoves_white (s : State) (hp : s._player = PLAYER_WHITE) :
    gen_PawnMoves s = some
      (if RANK_2 &&& s._wPawns ≠ 0 then
        0 ||| ((((RANK_2 &&& s._wPawns) <<< (8 * 2)) % 2 ^ 64) &&&
          not64 ((RANK_4 &&& s._bPieces) ||| (((RANK_3 &&& s._bPieces) <<< (8 * 1)) % 2 ^ 64) |||
            (RANK_4 &&& s._wPieces) ||| (((RANK_3 &&& s._wPieces) <<< (8 * 1)) % 2 ^ 64)))
      else 0) := by
  unfold gen_PawnMoves
  rw [if_pos hp]
  by_cases h : RANK_2 &&& s._wPawns ≠ 0
  · rw [if_pos h, if_pos h]
    rfl
  · rw [if_neg h, if_neg h]
    rfl

/-- C7: with White to move, `gen_PawnMoves` returns a bitboard in which, for every
file `f`, the rank-4 square of the file is set if and only if a white pawn stands
on the rank-2 square of the file and the rank-3 and rank-4 squares of the file
are set in neither `_wPieces` nor `_bPieces`. -/
theorem gen_PawnMoves_white_double_push (s : State) (hp : s._player = PLAYER_WHITE) :
    ∃ b, gen_PawnMoves s = some b ∧
      ∀ f, f < 8 →
        (hasSquare b (24 + f) ↔
          hasSquare s._wPawns (8 + f) ∧ ¬ occupied s (16 + f) ∧ ¬ occupied s (24 + f)) := by
  refine ⟨_, gen_PawnMoves_white s hp, ?_⟩
  intro f hf
  have h2 := RANK_2_testBit f hf
  have h3 := RANK_3_testBit f hf
  have h4 := RANK_4_testBit f hf
  have e1 : 24 + f - 8 * 2 = 8 + f := by omega
  have e2 : 24 + f - 8 * 1 = 16 + f := by omega
  unfold occupied hasSquare
  by_cases h : RANK_2 &&& s._wPawns ≠ 0
  · rw [if_pos h, Nat.zero_or, Nat.testBit_and, testBit_not64 _ _ (by omega),
      testBit_shl64_value _ _ _ (by omega) (by omega), e1]
    simp only [Nat.testBit_or, Nat.testBit_and,
      testBit_shl64_value _ (8 * 1) (24 + f) (by omega) (by omega), e2, h2, h3, h4]
    cases s._wPawns.testBit (8 + f) <;> cases s._bPieces.testBit (24 + f) <;>
      cases s._bPieces.testBit (16 + f) <;> cases s._wPieces.testBit (24 + f) <;>
      cases s._wPieces.testBit (16 + f) <;> simp
  · rw [if_neg h]
    have hz : RANK_2 &&& s._wPawns = 0 := by
      by_contra hne
      exact h hne
    have hb : (RANK_2 &&& s._wPawns).testBit (8 + f) = false := by
      rw [hz]; exact Nat.zero_testBit _
    rw [Nat.testBit_and, h2] at hb
    simp only [Bool.true_and] at hb
    simp [hb]

theorem gen_PawnMoves_white_double_push_witness :
    startWhite._player = PLAYER_WHITE ∧
    ∃ b, gen_PawnMoves startWhite = some b ∧
      ∀ f, f < 8 →
        (hasSquare b (24 + f) ↔
          hasSquare startWhite._wPawns (8 + f) ∧ ¬ occupied startWhite (16 + f) ∧
            ¬ occupied startWhite (24 + f)) :=
  ⟨rfl, gen_PawnMoves_white_double_push startWhite rfl⟩

/-- C8 (the code at the failing input): from the standard starting position with
White to move, `gen_PawnMoves` returns exactly the eight rank-4 squares; on every
file a white pawn stands on rank 2 and the rank-3 square ahead of it is empty,
yet that rank-3 square is not in the result. -/
theorem gen_PawnMoves_start_omits_single_pushes :
    gen_PawnMoves startWhite = some 0xff000000 ∧
    ∀ f : Fin 8,
      hasSquare startWhite._wPawns (8 + f.val) ∧ ¬ occupied startWhite (16 + f.val) ∧
        ¬ hasSquare 0xff000000 (16 + f.val) := by
  decide

/-- C9 (the code at the failing input): from the standard starting position with
Black to move, `gen_PawnMoves` returns the empty bitboard; on every file a black
pawn stands on rank 7 and the rank-6 and rank-5 squares ahead of it are empty,
yet the rank-5 square is not in the result. -/
theorem gen_PawnMoves_black_start_empty :
    gen_PawnMoves startBlack = some 0 ∧
    ∀ f : Fin 8,
      hasSquare startBlack._bPawns (48 + f.val) ∧ ¬ occupied startBlack (40 + f.val) ∧
        ¬ occupied startBlack (32 + f.val) ∧ ¬ hasSquare 0 (32 + f.val) := by
  decide

/-- C10 (the code at the failing input): `gen_move` leaves the empty bitboard for
each of the six piece types, so the total number of set bits over the six move
bitboards is 0, not 20. -/
theorem gen_move_total_zero :
    (∀ piece : Fin 6, gen_move piece.val = 0) ∧
    ((List.range 6).map (fun piece => popcount64 (gen_move piece))).sum = 0 := by
  decide

/-! ## The board string -/

theorem forLoop_step {σ : Type} (inc hi : Nat) (body : Nat → σ → Option σ)
    (fuel v : Nat) (st : σ) (h : v ≤ hi) :
    forLoop inc hi body (fuel + 1) v st
      = (body v st).bind (forLoop inc hi body fuel (v + inc)) := by
  simp only [forLoop, if_pos h]

theorem forLoop_stop {σ : Type} (inc hi : Nat) (body : Nat → σ → Option σ)
    (fuel v : Nat) (st : σ) (h : hi < v) :
    forLoop inc hi body (fuel + 1) v st = some st := by
  simp only [forLoop, if_neg (Nat.not_le.mpr h)]

theorem writeCells_cons (board : List Char) (w : Nat × Char) (ws : List (Nat × Char)) :
    writeCells board (w :: ws) = writeCells (board.set w.1 w.2) ws := rfl

theorem writeCells_append (board : List Char) (ws vs : List (Nat × Char)) :
    writeCells board (ws ++ vs) = writeCells (writeCells board ws) vs := by
  simp only [writeCells, List.foldl_append]

theorem writeCells_length (board : List Char) (ws : List (Nat × Char)) :
    (writeCells board ws).length = board.length := by
  induction ws generalizing board with
  | nil => rfl
  | cons w ws ih => rw [writeCells_cons, ih, List.length_set]

theorem two_pow_mod_shift (q : Nat) :
    ((2 ^ q % 2 ^ 64) <<< 1) % 2 ^ 64 = 2 ^ (q + 1) % 2 ^ 64 := by
  calc ((2 ^ q % 2 ^ 64) <<< 1) % 2 ^ 64
      = ((2 ^ q % 2 ^ 64) * 2) % 2 ^ 64 := by rw [Nat.shiftLeft_eq, Nat.pow_one]
    _ = (2 ^ q * 2) % 2 ^ 64 := by rw [Nat.mod_mul_mod]
    _ = 2 ^ (q + 1) % 2 ^ 64 := by rw [← Nat.pow_succ]

theorem pieceCell_eq (ptrs : List Nat) (letter : Nat → Char) (j q : Nat)
    (board : List Char) (hj : j < board.length) :
    pieceCell ptrs letter j (board, 2 ^ q % 2 ^ 64)
      = some (board.set j (cellChar ptrs letter (2 ^ q % 2 ^ 64)), 2 ^ (q + 1) % 2 ^ 64) := by
  simp only [pieceCell, writeChar, if_pos hj, EAST, shl64,
    if_pos (show (1 : Nat) < 64 by decide), two_pow_mod_shift]
  rfl

theorem pieceLoop_eq (ptrs : List Nat) (letter : Nat → Char) (hi : Nat) :
    ∀ (n fuel j q : Nat) (board : List Char), n < fuel → hi + 7 = j + 7 * n →
      hi < board.length →
      forLoop S_HORIZONTAL_INC hi (pieceCell ptrs letter) fuel j (board, 2 ^ q % 2 ^ 64)
        = some (writeCells board
            ((List.range n).map fun f => (j + 7 * f, cellChar ptrs letter (2 ^ (q + f) % 2 ^ 64))),
            2 ^ (q + n) % 2 ^ 64) := by
  intro n
  induction n with
  | zero =>
    intro fuel j q board hf hj _
    obtain ⟨fuel, rfl⟩ : ∃ k, fuel = k + 1 := ⟨fuel - 1, by omega⟩
    rw [forLoop_stop _ _ _ _ _ _ (by omega)]
    rfl
  | succ n ih =>
    intro fuel j q board hf hj hb
    obtain ⟨fuel, rfl⟩ : ∃ k, fuel = k + 1 := ⟨fuel - 1, by omega⟩
    rw [forLoop_step _ _ _ _ _ _ (by omega), pieceCell_eq _ _ _ _ _ (by omega),
      Option.some_bind,
      ih fuel (j + S_HORIZONTAL_INC) (q + 1) _ (by omega)
        (by simp only [S_HORIZONTAL_INC]; omega) (by rw [List.length_set]; exact hb),
      List.range_succ_eq_map, List.map_cons, writeCells_cons, List.map_map]
    have hfun : ∀ f, j + 7 + 7 * f = j + 7 * (f + 1) := fun f => by omega
    have hq : ∀ f, q + 1 + f = q + (f + 1) := fun f => by omega
    simp only [S_HORIZONTAL_INC, Nat.mul_zero, Nat.add_zero, Function.comp_def,
      Nat.succ_eq_add_one, hfun, hq]

theorem openLoop_eq (hi : Nat) :
    ∀ (n fuel j : Nat) (board : List Char), n < fuel → hi + 7 = j + 7 * n →
      hi < board.length →
      forLoop S_HORIZONTAL_INC hi (fun j board => writeChar board j S_OPEN_SQUARE) fuel j board
        = some (writeCells board ((List.range n).map fun f => (j + 7 * f, S_OPEN_SQUARE))) := by
  intro n
  induction n with
  | zero =>
    intro fuel j board hf hj _
    obtain ⟨fuel, rfl⟩ : ∃ k, fuel = k + 1 := ⟨fuel - 1, by omega⟩
    rw [forLoop_stop _ _ _ _ _ _ (by omega)]
    rfl
  | succ n ih =>
    intro fuel j board hf hj hb
    obtain ⟨fuel, rfl⟩ : ∃ k, fuel = k + 1 := ⟨fuel - 1, by omega⟩
    have hw : writeChar board j S_OPEN_SQUARE = some (board.set j S_OPEN_SQUARE) := by
      simp only [writeChar, if_pos (show j < board.length by omega)]
    rw [forLoop_step _ _ _ _ _ _ (by omega), hw, Option.some_bind,
      ih fuel (j + S_HORIZONTAL_INC) _ (by omega)
        (by simp only [S_HORIZONTAL_INC]; omega) (by rw [List.length_set]; exact hb),
      List.range_succ_eq_map, List.map_cons, writeCells_cons, List.map_map]
    have hfun : ∀ f, j + 7 + 7 * f = j + 7 * (f + 1) := fun f => by omega
    simp only [S_HORIZONTAL_INC, Nat.mul_zero, Nat.add_zero, Function.comp_def,
      Nat.succ_eq_add_one, hfun]

theorem pieceRowStep_eq (ptrs : List Nat) (letter : Nat → Char) (first nxt i q : Nat)
    (board : List Char) (hS : SOUTH first 1 = some nxt) (hb : i + 49 < board.length) :
    pieceRowStep ptrs letter first i (board, 2 ^ q % 2 ^ 64)
      = some (writeCells board (rowStores ptrs letter i q), nxt) := by
  have h := pieceLoop_eq ptrs letter (i + S_HORIZONTAL_INC * 7) 8 9 i q board (by decide)
    (by simp only [S_HORIZONTAL_INC]) (by simp only [S_HORIZONTAL_INC]; omega)
  simp only [pieceRowStep, pieceRow, h, hS, rowStores]
  rfl

theorem openRow_eq (i : Nat) (board : List Char) (hb : i + 49 < board.length) :
    openRow i board = some (writeCells board (openStores i)) := by
  have h := openLoop_eq (i + S_HORIZONTAL_INC * 7) 8 9 i board (by decide)
    (by simp only [S_HORIZONTAL_INC]) (by simp only [S_HORIZONTAL_INC]; omega)
  simp only [openRow, h, openStores]

theorem init_board_string_of (s : State) (a8 a2 q1 q2 : Nat) (b1 b2 board : List Char)
    (h1 : shl64 1 (8 * 7) = some a8) (h2 : shl64 1 8 = some a2)
    (h3 : forLoop S_VERTICAL_INC S_A7 (pieceRowStep (ptrBlackPieces s) blackLetter a8) 3 S_A8
      (s._board, a8) = some (b1, q1))
    (h4 : forLoop S_VERTICAL_INC S_A3 openRow 5 S_A6 b1 = some board)
    (h5 : forLoop S_VERTICAL_INC S_A1 (pieceRowStep (ptrWhitePieces s) whiteLetter a2) 3 S_A2
      (board, a2) = some (b2, q2)) :
    init_board_string s = some { s with _board := b2 } := by
  unfold init_board_string
  rw [h1, h2]
  simp only [Option.bind_eq_bind, Option.some_bind, h3, h4, h5]
  rfl

theorem init_board_string_rows (s : State) (hlen : s._board.length = 2005) :
    init_board_string s = some { s with _board := (writeCells s._board
      (rowStores (ptrBlackPieces s) blackLetter 123 56 ++
        (rowStores (ptrBlackPieces s) blackLetter 359 48 ++
        (openStores 595 ++ (openStores 831 ++ (openStores 1067 ++ (openStores 1303 ++
        (rowStores (ptrWhitePieces s) whiteLetter 1539 8 ++
          rowStores (ptrWhitePieces s) whiteLetter 1775 0)))))))) } := by
  have hA8 : shl64 1 (8 * 7) = some (2 ^ 56 % 2 ^ 64) := by decide
  have hA2 : shl64 1 8 = some (2 ^ 8 % 2 ^ 64) := by decide
  have hS8 : SOUTH (2 ^ 56 % 2 ^ 64) 1 = some (2 ^ 48 % 2 ^ 64) := by decide
  have hS2 : SOUTH (2 ^ 8 % 2 ^ 64) 1 = some (2 ^ 0 % 2 ^ 64) := by decide
  have hblack : forLoop S_VERTICAL_INC S_A7
      (pieceRowStep (ptrBlackPieces s) blackLetter (2 ^ 56 % 2 ^ 64)) 3 S_A8
        (s._board, 2 ^ 56 % 2 ^ 64)
      = some (writeCells (writeCells s._board (rowStores (ptrBlackPieces s) blackLetter 123 56))
          (rowStores (ptrBlackPieces s) blackLetter 359 48), 2 ^ 48 % 2 ^ 64) := by
    rw [forLoop_step _ _ _ _ _ _ (by decide),
      show S_A8 = 123 from rfl,
      pieceRowStep_eq _ _ _ _ _ _ _ hS8 (by omega), Option.some_bind,
      forLoop_step _ _ _ _ _ _ (by decide),
      show 123 + S_VERTICAL_INC = 359 from rfl,
      pieceRowStep_eq _ _ _ _ _ _ _ hS8 (by rw [writeCells_length]; omega), Option.some_bind,
      forLoop_stop _ _ _ _ _ _ (by decide)]
  have hopen : ∀ board : List Char, board.length = 2005 →
      forLoop S_VERTICAL_INC S_A3 openRow 5 S_A6 board
        = some (writeCells (writeCells (writeCells (writeCells board (openStores 595))
            (openStores 831)) (openStores 1067)) (openStores 1303)) := by
    intro board hb
    rw [forLoop_step _ _ _ _ _ _ (by decide),
      show S_A6 = 595 from rfl,
      openRow_eq _ _ (by omega), Option.some_bind,
      forLoop_step _ _ _ _ _ _ (by decide),
      show 595 + S_VERTICAL_INC = 831 from rfl,
      openRow_eq _ _ (by rw [writeCells_length]; omega), Option.some_bind,
      forLoop_step _ _ _ _ _ _ (by decide),
      show 831 + S_VERTICAL_INC = 1067 from rfl,
      openRow_eq _ _ (by rw [writeCells_length, writeCells_length]; omega), Option.some_bind,
      forLoop_step _ _ _ _ _ _ (by decide),
      show 1067 + S_VERTICAL_INC = 1303 from rfl,
      openRow_eq _ _ (by rw [writeCells_length, writeCells_length, writeCells_length]; omega),
      Option.some_bind,
      forLoop_stop _ _ _ _ _ _ (by decide)]
  have hwhite : ∀ board : List Char, board.length = 2005 →
      forLoop S_VERTICAL_INC S_A1
        (pieceRowStep (ptrWhitePieces s) whiteLetter (2 ^ 8 % 2 ^ 64)) 3 S_A2
          (board, 2 ^ 8 % 2 ^ 64)
        = some (writeCells (writeCells board (rowStores (ptrWhitePieces s) whiteLetter 1539 8))
            (rowStores (ptrWhitePieces s) whiteLetter 1775 0), 2 ^ 0 % 2 ^ 64) := by
    intro board hb
    rw [forLoop_step _ _ _ _ _ _ (by decide),
      show S_A2 = 1539 from rfl,
      pieceRowStep_eq _ _ _ _ _ _ _ hS2 (by omega), Option.some_bind,
      forLoop_step _ _ _ _ _ _ (by decide),
      show 1539 + S_VERTICAL_INC = 1775 from rfl,
      pieceRowStep_eq _ _ _ _ _ _ _ hS2 (by rw [writeCells_length]; omega), Option.some_bind,
      forLoop_stop _ _ _ _ _ _ (by decide)]
  have hl2 : (writeCells (writeCells s._board (rowStores (ptrBlackPieces s) blackLetter 123 56))
      (rowStores (ptrBlackPieces s) blackLetter 359 48)).length = 2005 := by
    rw [writeCells_length, writeCells_length, hlen]
  have hl6 : (writeCells (writeCells (writeCells (writeCells
      (writeCells (writeCells s._board (rowStores (ptrBlackPieces s) blackLetter 123 56))
        (rowStores (ptrBlackPieces s) blackLetter 359 48))
      (openStores 595)) (openStores 831)) (openStores 1067)) (openStores 1303)).length
      = 2005 := by
    simp only [writeCells_length, hlen]
  rw [writeCells_append, writeCells_append, writeCells_append, writeCells_append,
    writeCells_append, writeCells_append, writeCells_append]
  have h4 := hopen _ hl2
  have h5 := hwhite _ hl6
  exact init_board_string_of s _ _ _ _ _ _ _ hA8 hA2 hblack h4 h5

theorem flatMap_range_eight {α : Type} (g : Nat → List α) :
    (List.range 8).flatMap g
      = g 0 ++ (g 1 ++ (g 2 ++ (g 3 ++ (g 4 ++ (g 5 ++ (g 6 ++ g 7)))))) := by
  have hr : List.range 8 = [0, 1, 2, 3, 4, 5, 6, 7] := by decide
  rw [hr]
  simp only [List.flatMap_cons, List.flatMap_nil, List.append_nil]

theorem two_pow_square_mod (q : Nat) (hq : q < 64) : 2 ^ q % 2 ^ 64 = 2 ^ q :=
  Nat.mod_eq_of_lt (Nat.pow_lt_pow_right (by decide) hq)

theorem boardRow_black (s : State) (k : Nat) (hk : k < 2) :
    ((List.range 8).map fun f => (123 + 236 * k + 7 * f, storedChar s k f))
      = rowStores (ptrBlackPieces s) blackLetter (123 + 236 * k) (8 * (7 - k)) := by
  unfold rowStores
  apply List.map_congr_left
  intro f hf
  have hf8 : f < 8 := List.mem_range.mp hf
  simp only [storedChar, if_pos hk, two_pow_square_mod (8 * (7 - k) + f) (by omega)]

theorem boardRow_open (s : State) (k : Nat) (hk2 : 2 ≤ k) (hk6 : k < 6) :
    ((List.range 8).map fun f => (123 + 236 * k + 7 * f, storedChar s k f))
      = openStores (123 + 236 * k) := by
  unfold openStores
  apply List.map_congr_left
  intro f _
  simp only [storedChar, if_neg (show ¬ k < 2 by omega), if_pos hk6]

theorem boardRow_white (s : State) (k : Nat) (hk6 : 6 ≤ k) (hk8 : k < 8) :
    ((List.range 8).map fun f => (123 + 236 * k + 7 * f, storedChar s k f))
      = rowStores (ptrWhitePieces s) whiteLetter (123 + 236 * k) (8 * (7 - k)) := by
  unfold rowStores
  apply List.map_congr_left
  intro f hf
  have hf8 : f < 8 := List.mem_range.mp hf
  simp only [storedChar, if_neg (show ¬ k < 2 by omega), if_neg (show ¬ k < 6 by omega),
    two_pow_square_mod (8 * (7 - k) + f) (by omega)]

theorem boardStores_rows (s : State) :
    boardStores s =
      rowStores (ptrBlackPieces s) blackLetter 123 56 ++
        (rowStores (ptrBlackPieces s) blackLetter 359 48 ++
        (openStores 595 ++ (openStores 831 ++ (openStores 1067 ++ (openStores 1303 ++
        (rowStores (ptrWhitePieces s) whiteLetter 1539 8 ++
          rowStores (ptrWhitePieces s) whiteLetter 1775 0)))))) := by
  unfold boardStores
  rw [flatMap_range_eight, boardRow_black s 0 (by decide), boardRow_black s 1 (by decide),
    boardRow_open s 2 (by decide) (by decide), boardRow_open s 3 (by decide) (by decide),
    boardRow_open s 4 (by decide) (by decide), boardRow_open s 5 (by decide) (by decide),
    boardRow_white s 6 (by decide) (by decide), boardRow_white s 7 (by decide) (by decide)]

/-- The closed form of `init_board_string`: on a 2005-character `_board` it
returns the state with the 64 stores of `boardStores` made and nothing else
changed. -/
theorem init_board_string_eq (s : State) (hlen : s._board.length = 2005) :
    init_board_string s
      = some { s with _board := (writeCells s._board (boardStores s)) } := by
  rw [boardStores_rows]
  exact init_board_string_rows s hlen

theorem writeCells_getElem?_of_ne (ws : List (Nat × Char)) (idx : Nat) :
    ∀ board : List Char, (∀ w, w ∈ ws → w.1 ≠ idx) →
      (writeCells board ws)[idx]? = board[idx]? := by
  induction ws with
  | nil => intro board _; rfl
  | cons w ws ih =>
    intro board h
    rw [writeCells_cons, ih _ (fun v hv => h v (List.mem_cons_of_mem _ hv)),
      List.getElem?_set_ne (h w (List.mem_cons_self _ _))]

theorem writeCells_getElem?_of_mem (ws : List (Nat × Char)) (i : Nat) (c : Char) :
    ∀ board : List Char, (i, c) ∈ ws → (∀ w, w ∈ ws → w.1 = i → w.2 = c) →
      i < board.length → (writeCells board ws)[i]? = some c := by
  induction ws with
  | nil => intro board hm; cases hm
  | cons w ws ih =>
    intro board hm hall hi
    rw [writeCells_cons]
    by_cases hmem : (i, c) ∈ ws
    · exact ih _ hmem (fun v hv => hall v (List.mem_cons_of_mem _ hv))
        (by rw [List.length_set]; exact hi)
    · have hw : w = (i, c) := by
        rcases List.mem_cons.mp hm with h | h
        · exact h.symm
        · exact absurd h hmem
      have hne : ∀ v, v ∈ ws → v.1 ≠ i := by
        intro v hv hvi
        have hv2 := hall v (List.mem_cons_of_mem _ hv) hvi
        apply hmem
        have : v = (i, c) := Prod.ext hvi hv2
        rw [← this]; exact hv
      rw [writeCells_getElem?_of_ne ws i _ hne, hw]
      exact List.getElem?_set_self hi

theorem mem_boardStores (s : State) (w : Nat × Char) :
    w ∈ boardStores s ↔
      ∃ k f, k < 8 ∧ f < 8 ∧ w = (123 + 236 * k + 7 * f, storedChar s k f) := by
  simp only [boardStores, List.mem_flatMap, List.mem_map, List.mem_range]
  constructor
  · rintro ⟨k, hk, f, hf, rfl⟩
    exact ⟨k, f, hk, hf, rfl⟩
  · rintro ⟨k, f, hk, hf, rfl⟩
    exact ⟨k, hk, f, hf, rfl⟩

theorem land_two_pow_ne_zero_iff (b sq : Nat) : b &&& 2 ^ sq ≠ 0 ↔ hasSquare b sq := by
  unfold hasSquare
  constructor
  · intro h
    by_contra hb
    apply h
    apply Nat.eq_of_testBit_eq
    intro i
    rw [Nat.testBit_and, Nat.testBit_two_pow, Nat.zero_testBit]
    by_cases hi : sq = i
    · subst hi
      simp only [Bool.not_eq_true] at hb
      rw [hb]; rfl
    · simp [hi]
  · intro h h0
    have h2 : (b &&& 2 ^ sq).testBit sq = true := by
      rw [Nat.testBit_and, h, Nat.testBit_two_pow_self]; rfl
    rw [h0, Nat.zero_testBit] at h2
    exact Bool.noConfusion h2

theorem cellChar_black (s : State) (v : Nat) :
    cellChar (ptrBlackPieces s) blackLetter v =
      if s._bKing &&& v ≠ 0 then 'k' else if s._bQueen &&& v ≠ 0 then 'q'
      else if s._bBishops &&& v ≠ 0 then 'b' else if s._bKnights &&& v ≠ 0 then 'n'
      else if s._bRooks &&& v ≠ 0 then 'r' else if s._bPawns &&& v ≠ 0 then 'p'
      else ' ' := rfl

theorem cellChar_white (s : State) (v : Nat) :
    cellChar (ptrWhitePieces s) whiteLetter v =
      if s._wKing &&& v ≠ 0 then 'K' else if s._wQueen &&& v ≠ 0 then 'Q'
      else if s._wBishops &&& v ≠ 0 then 'B' else if s._wKnights &&& v ≠ 0 then 'N'
      else if s._wRooks &&& v ≠ 0 then 'R' else if s._wPawns &&& v ≠ 0 then 'P'
      else ' ' := rfl

theorem pair_disjoint (s : State) (hD : (pieceBoards s).Pairwise noCommonSquare)
    (i j : Nat) (hij : i < j) (hj : j < 12) (sq : Nat) :
    ¬ (hasSquare ((pieceBoards s).getD i 0) sq ∧ hasSquare ((pieceBoards s).getD j 0) sq) := by
  have hlen : (pieceBoards s).length = 12 := rfl
  have h := List.pairwise_iff_getElem.mp hD i j (by omega) (by omega) hij
  rw [List.getD_eq_getElem _ _ (show i < (pieceBoards s).length by omega),
    List.getD_eq_getElem _ _ (show j < (pieceBoards s).length by omega)]
  exact h sq

theorem no_board_iff (s : State) (sq : Nat) :
    (∀ b, b ∈ pieceBoards s → ¬ hasSquare b sq) ↔
      (¬ hasSquare s._wKing sq ∧ ¬ hasSquare s._wQueen sq ∧ ¬ hasSquare s._wRooks sq ∧
       ¬ hasSquare s._wBishops sq ∧ ¬ hasSquare s._wKnights sq ∧ ¬ hasSquare s._wPawns sq ∧
       ¬ hasSquare s._bKing sq ∧ ¬ hasSquare s._bQueen sq ∧ ¬ hasSquare s._bRooks sq ∧
       ¬ hasSquare s._bBishops sq ∧ ¬ hasSquare s._bKnights sq ∧ ¬ hasSquare s._bPawns sq) := by
  simp only [pieceBoards, List.mem_cons, List.mem_singleton, forall_eq_or_imp, forall_eq,
    List.not_mem_nil, false_imp_iff, implies_true, and_true]

theorem black_cell_shows (s : State) (sq : Nat) (h48 : 48 ≤ sq) (hW : whiteOnHomeRanks s)
    (hD : (pieceBoards s).Pairwise noCommonSquare) :
    showsSquare s sq (cellChar (ptrBlackPieces s) blackLetter (2 ^ sq)) := by
  have w0 : ¬ hasSquare s._wKing sq := fun h => by
    have := hW s._wKing (by simp [whiteBoards]) sq h; omega
  have w1 : ¬ hasSquare s._wQueen sq := fun h => by
    have := hW s._wQueen (by simp [whiteBoards]) sq h; omega
  have w2 : ¬ hasSquare s._wRooks sq := fun h => by
    have := hW s._wRooks (by simp [whiteBoards]) sq h; omega
  have w3 : ¬ hasSquare s._wBishops sq := fun h => by
    have := hW s._wBishops (by simp [whiteBoards]) sq h; omega
  have w4 : ¬ hasSquare s._wKnights sq := fun h => by
    have := hW s._wKnights (by simp [whiteBoards]) sq h; omega
  have w5 : ¬ hasSquare s._wPawns sq := fun h => by
    have := hW s._wPawns (by simp [whiteBoards]) sq h; omega
  have d67 : ¬ (hasSquare s._bKing sq ∧ hasSquare s._bQueen sq) :=
    pair_disjoint s hD 6 7 (by decide) (by decide) sq
  have d68 : ¬ (hasSquare s._bKing sq ∧ hasSquare s._bRooks sq) :=
    pair_disjoint s hD 6 8 (by decide) (by decide) sq
  have d69 : ¬ (hasSquare s._bKing sq ∧ hasSquare s._bBishops sq) :=
    pair_disjoint s hD 6 9 (by decide) (by decide) sq
  have d6a : ¬ (hasSquare s._bKing sq ∧ hasSquare s._bKnights sq) :=
    pair_disjoint s hD 6 10 (by decide) (by decide) sq
  have d6b : ¬ (hasSquare s._bKing sq ∧ hasSquare s._bPawns sq) :=
    pair_disjoint s hD 6 11 (by decide) (by decide) sq
  have d78 : ¬ (hasSquare s._bQueen sq ∧ hasSquare s._bRooks sq) :=
    pair_disjoint s hD 7 8 (by decide) (by decide) sq
  have d79 : ¬ (hasSquare s._bQueen sq ∧ hasSquare s._bBishops sq) :=
    pair_disjoint s hD 7 9 (by decide) (by decide) sq
  have d7a : ¬ (hasSquare s._bQueen sq ∧ hasSquare s._bKnights sq) :=
    pair_disjoint s hD 7 10 (by decide) (by decide) sq
  have d7b : ¬ (hasSquare s._bQueen sq ∧ hasSquare s._bPawns sq) :=
    pair_disjoint s hD 7 11 (by decide) (by decide) sq
  have d89 : ¬ (hasSquare s._bRooks sq ∧ hasSquare s._bBishops sq) :=
    pair_disjoint s hD 8 9 (by decide) (by decide) sq
  have d8a : ¬ (hasSquare s._bRooks sq ∧ hasSquare s._bKnights sq) :=
    pair_disjoint s hD 8 10 (by decide) (by decide) sq
  have d8b : ¬ (hasSquare s._bRooks sq ∧ hasSquare s._bPawns sq) :=
    pair_disjoint s hD 8 11 (by decide) (by decide) sq
  have d9a : ¬ (hasSquare s._bBishops sq ∧ hasSquare s._bKnights sq) :=
    pair_disjoint s hD 9 10 (by decide) (by decide) sq
  have d9b : ¬ (hasSquare s._bBishops sq ∧ hasSquare s._bPawns sq) :=
    pair_disjoint s hD 9 11 (by decide) (by decide) sq
  have dab : ¬ (hasSquare s._bKnights sq ∧ hasSquare s._bPawns sq) :=
    pair_disjoint s hD 10 11 (by decide) (by decide) sq
  rw [cellChar_black]
  simp only [land_two_pow_ne_zero_iff]
  unfold showsSquare
  rw [no_board_iff]
  clear hD hW
  by_cases hK : hasSquare s._bKing sq <;> by_cases hQ : hasSquare s._bQueen sq <;>
    by_cases hR : hasSquare s._bRooks sq <;> by_cases hB : hasSquare s._bBishops sq <;>
    by_cases hN : hasSquare s._bKnights sq <;> by_cases hP : hasSquare s._bPawns sq <;>
    simp_all

theorem white_cell_shows (s : State) (sq : Nat) (h16 : sq < 16) (hB : blackOnHomeRanks s)
    (hD : (pieceBoards s).Pairwise noCommonSquare) :
    showsSquare s sq (cellChar (ptrWhitePieces s) whiteLetter (2 ^ sq)) := by
  have b0 : ¬ hasSquare s._bKing sq := fun h => by
    have := hB s._bKing (by simp [blackBoards]) sq h; omega
  have b1 : ¬ hasSquare s._bQueen sq := fun h => by
    have := hB s._bQueen (by simp [blackBoards]) sq h; omega
  have b2 : ¬ hasSquare s._bRooks sq := fun h => by
    have := hB s._bRooks (by simp [blackBoards]) sq h; omega
  have b3 : ¬ hasSquare s._bBishops sq := fun h => by
    have := hB s._bBishops (by simp [blackBoards]) sq h; omega
  have b4 : ¬ hasSquare s._bKnights sq := fun h => by
    have := hB s._bKnights (by simp [blackBoards]) sq h; omega
  have b5 : ¬ hasSquare s._bPawns sq := fun h => by
    have := hB s._bPawns (by simp [blackBoards]) sq h; omega
  have d01 : ¬ (hasSquare s._wKing sq ∧ hasSquare s._wQueen sq) :=
    pair_disjoint s hD 0 1 (by decide) (by decide) sq
  have d02 : ¬ (hasSquare s._wKing sq ∧ hasSquare s._wRooks sq) :=
    pair_disjoint s hD 0 2 (by decide) (by decide) sq
  have d03 : ¬ (hasSquare s._wKing sq ∧ hasSquare s._wBishops sq) :=
    pair_disjoint s hD 0 3 (by decide) (by decide) sq
  have d04 : ¬ (hasSquare s._wKing sq ∧ hasSquare s._wKnights sq) :=
    pair_disjoint s hD 0 4 (by decide) (by decide) sq
  have d05 : ¬ (hasSquare s._wKing sq ∧ hasSquare s._wPawns sq) :=
    pair_disjoint s hD 0 5 (by decide) (by decide) sq
  have d12 : ¬ (hasSquare s._wQueen sq ∧ hasSquare s._wRooks sq) :=
    pair_disjoint s hD 1 2 (by decide) (by decide) sq
  have d13 : ¬ (hasSquare s._wQueen sq ∧ hasSquare s._wBishops sq) :=
    pair_disjoint s hD 1 3 (by decide) (by decide) sq
  have d14 : ¬ (hasSquare s._wQueen sq ∧ hasSquare s._wKnights sq) :=
    pair_disjoint s hD 1 4 (by decide) (by decide) sq
  have d15 : ¬ (hasSquare s._wQueen sq ∧ hasSquare s._wPawns sq) :=
    pair_disjoint s hD 1 5 (by decide) (by decide) sq
  have d23 : ¬ (hasSquare s._wRooks sq ∧ hasSquare s._wBishops sq) :=
    pair_disjoint s hD 2 3 (by decide) (by decide) sq
  have d24 : ¬ (hasSquare s._wRooks sq ∧ hasSquare s._wKnights sq) :=
    pair_disjoint s hD 2 4 (by decide) (by decide) sq
  have d25 : ¬ (hasSquare s._wRooks sq ∧ hasSquare s._wPawns sq) :=
    pair_disjoint s hD 2 5 (by decide) (by decide) sq
  have d34 : ¬ (hasSquare s._wBishops sq ∧ hasSquare s._wKnights sq) :=
    pair_disjoint s hD 3 4 (by decide) (by decide) sq
  have d35 : ¬ (hasSquare s._wBishops sq ∧ hasSquare s._wPawns sq) :=
    pair_disjoint s hD 3 5 (by decide) (by decide) sq
  have d45 : ¬ (hasSquare s._wKnights sq ∧ hasSquare s._wPawns sq) :=
    pair_disjoint s hD 4 5 (by decide) (by decide) sq
  rw [cellChar_white]
  simp only [land_two_pow_ne_zero_iff]
  unfold showsSquare
  rw [no_board_iff]
  clear hD hB
  by_cases hK : hasSquare s._wKing sq <;> by_cases hQ : hasSquare s._wQueen sq <;>
    by_cases hR : hasSquare s._wRooks sq <;> by_cases hB : hasSquare s._wBishops sq <;>
    by_cases hN : hasSquare s._wKnights sq <;> by_cases hP : hasSquare s._wPawns sq <;>
    simp_all

theorem open_cell_shows (s : State) (sq : Nat) (h16 : 16 ≤ sq) (h48 : sq < 48)
    (hB : blackOnHomeRanks s) (hW : whiteOnHomeRanks s) :
    showsSquare s sq S_OPEN_SQUARE := by
  have b0 : ¬ hasSquare s._bKing sq := fun h => by
    have := hB s._bKing (by simp [blackBoards]) sq h; omega
  have w0 : ¬ hasSquare s._wKing sq := fun h => by
    have := hW s._wKing (by simp [whiteBoards]) sq h; omega
  have b1 : ¬ hasSquare s._bQueen sq := fun h => by
    have := hB s._bQueen (by simp [blackBoards]) sq h; omega
  have w1 : ¬ hasSquare s._wQueen sq := fun h => by
    have := hW s._wQueen (by simp [whiteBoards]) sq h; omega
  have b2 : ¬ hasSquare s._bRooks sq := fun h => by
    have := hB s._bRooks (by simp [blackBoards]) sq h; omega
  have w2 : ¬ hasSquare s._wRooks sq := fun h => by
    have := hW s._wRooks (by simp [whiteBoards]) sq h; omega
  have b3 : ¬ hasSquare s._bBishops sq := fun h => by
    have := hB s._bBishops (by simp [blackBoards]) sq h; omega
  have w3 : ¬ hasSquare s._wBishops sq := fun h => by
    have := hW s._wBishops (by simp [whiteBoards]) sq h; omega
  have b4 : ¬ hasSquare s._bKnights sq := fun h => by
    have := hB s._bKnights (by simp [blackBoards]) sq h; omega
  have w4 : ¬ hasSquare s._wKnights sq := fun h => by
    have := hW s._wKnights (by simp [whiteBoards]) sq h; omega
  have b5 : ¬ hasSquare s._bPawns sq := fun h => by
    have := hB s._bPawns (by simp [blackBoards]) sq h; omega
  have w5 : ¬ hasSquare s._wPawns sq := fun h => by
    have := hW s._wPawns (by simp [whiteBoards]) sq h; omega
  unfold showsSquare
  simp only [b0, b1, b2, b3, b4, b5, w0, w1, w2, w3, w4, w5, false_imp_iff, true_and]
  intro _
  rfl

theorem cellChar_black_ne_placeholder (s : State) (v : Nat) :
    cellChar (ptrBlackPieces s) blackLetter v ≠ 'O' := by
  rw [cellChar_black]
  split_ifs <;> decide

theorem cellChar_white_ne_placeholder (s : State) (v : Nat) :
    cellChar (ptrWhitePieces s) whiteLetter v ≠ 'O' := by
  rw [cellChar_white]
  split_ifs <;> decide

theorem storedChar_ne_placeholder (s : State) (k f : Nat) : storedChar s k f ≠ 'O' := by
  unfold storedChar
  split_ifs
  · exact cellChar_black_ne_placeholder s _
  · decide
  · exact cellChar_white_ne_placeholder s _

theorem storedChar_shows (s : State) (f r : Nat) (hf : f < 8) (hr : r < 8)
    (hB : blackOnHomeRanks s) (hW : whiteOnHomeRanks s)
    (hD : (pieceBoards s).Pairwise noCommonSquare) :
    showsSquare s (8 * r + f) (storedChar s (7 - r) f) := by
  have e : 8 * (7 - (7 - r)) + f = 8 * r + f := by omega
  unfold storedChar
  rw [e]
  split_ifs with h2 h6
  · exact black_cell_shows s _ (by omega) hW hD
  · exact open_cell_shows s _ (by omega) (by omega) hB hW
  · exact white_cell_shows s _ (by omega) hB hD

theorem boardStores_read (s : State) (f r : Nat) (hf : f < 8) (hr : r < 8)
    (hlen : s._board.length = 2005) :
    (writeCells s._board (boardStores s))[cellIndex f r]? = some (storedChar s (7 - r) f) := by
  apply writeCells_getElem?_of_mem
  · rw [mem_boardStores]
    exact ⟨7 - r, f, by omega, hf, rfl⟩
  · intro w hw hwi
    rw [mem_boardStores] at hw
    obtain ⟨k, g, hk, hg, rfl⟩ := hw
    simp only [cellIndex] at hwi
    have hk2 : k = 7 - r := by omega
    have hg2 : g = f := by omega
    rw [hk2, hg2]
  · rw [hlen]
    simp only [cellIndex]
    omega

theorem boardStores_frame (s : State) (idx : Nat)
    (hidx : ∀ k f, k < 8 → f < 8 → idx ≠ 123 + 236 * k + 7 * f) :
    (writeCells s._board (boardStores s))[idx]? = s._board[idx]? := by
  apply writeCells_getElem?_of_ne
  intro w hw hwi
  rw [mem_boardStores] at hw
  obtain ⟨k, f, hk, hf, rfl⟩ := hw
  exact hidx k f hk hf hwi.symm

/-- C13: on a state whose black pieces all stand on ranks 7-8, whose white pieces
all stand on ranks 1-2 and whose twelve piece bitboards are pairwise disjoint,
`init_board_string` returns, and afterwards the character of `_board` at index
`123 + 236 * (7 - r) + 7 * f` is, for every file `f` and rank `r`, the letter of
the piece on that square or a blank if the square is empty, never the `O`
placeholder; A8 is at index 123, B8 at 130 and A7 at 123 + 236. -/
theorem init_board_string_renders (s : State) (hlen : s._board.length = BOARD_STRING_SIZE)
    (hB : blackOnHomeRanks s) (hW : whiteOnHomeRanks s)
    (hD : (pieceBoards s).Pairwise noCommonSquare) :
    ∃ t, init_board_string s = some t ∧
      (∀ f r, f < 8 → r < 8 →
        ∃ c, t._board[cellIndex f r]? = some c ∧ showsSquare s (8 * r + f) c ∧ c ≠ 'O') ∧
      cellIndex 0 7 = 123 ∧ cellIndex 1 7 = 130 ∧ cellIndex 0 6 = 123 + 236 := by
  have hlen2 : s._board.length = 2005 := hlen
  have heq := init_board_string_eq s hlen2
  have hread := fun f r hf hr => boardStores_read s f r hf hr hlen2
  generalize writeCells s._board (boardStores s) = X at heq hread
  refine ⟨_, heq, ?_, rfl, rfl, rfl⟩
  intro f r hf hr
  exact ⟨storedChar s (7 - r) f, hread f r hf hr, storedChar_shows s f r hf hr hB hW hD,
    storedChar_ne_placeholder s _ _⟩

/-- C14: on the 2005-character `_board`, `init_board_string` returns a state that
differs from the given one in `_board` only; `_board` keeps its length, every
index that is not one of the 64 cell indices `123 + 236 * k + 7 * f` keeps its
character, the terminating NUL at index 2004 among them, and the 64 cell indices
lie between `S_A8` and `S_H1`, inside the array. -/
theorem init_board_string_frame (s : State) (hlen : s._board.length = BOARD_STRING_SIZE) :
    ∃ t, init_board_string s = some t ∧
      t = { s with _board := t._board } ∧
      t._board.length = BOARD_STRING_SIZE ∧
      (∀ idx, (∀ k f, k < 8 → f < 8 → idx ≠ 123 + 236 * k + 7 * f) →
        t._board[idx]? = s._board[idx]?) ∧
      t._board[2004]? = s._board[2004]? ∧
      (∀ k f, k < 8 → f < 8 →
        S_A8 ≤ 123 + 236 * k + 7 * f ∧ 123 + 236 * k + 7 * f ≤ S_H1 ∧
          123 + 236 * k + 7 * f < BOARD_STRING_SIZE) := by
  have hlen2 : s._board.length = 2005 := hlen
  have heq := init_board_string_eq s hlen2
  have hframe := boardStores_frame s
  have hl : (writeCells s._board (boardStores s)).length = BOARD_STRING_SIZE := by
    rw [writeCells_length, hlen]
  generalize writeCells s._board (boardStores s) = X at heq hframe hl
  refine ⟨_, heq, rfl, hl, hframe, ?_, ?_⟩
  · apply hframe
    intro k f hk hf
    omega
  · intro k f hk hf
    simp only [S_A8, S_H1, BOARD_STRING_SIZE]
    omega

theorem zeroState_board_length : zeroState._board.length = BOARD_STRING_SIZE := by
  simp only [zeroState, initialBoardString, boardRankBlock, boardCellLine, boardBorderLine,
    boardBlankLine, List.length_append, String.length, String.toList, String.data_append,
    List.length_singleton, BOARD_STRING_SIZE]
  rfl

theorem lt_of_hasSquare (x j n : Nat) (hx : x < 2 ^ n) (h : hasSquare x j) : j < n := by
  by_contra hj
  have h1 : 2 ^ n ≤ 2 ^ j := Nat.pow_le_pow_right (by decide) (by omega)
  have h2 : x.testBit j = false := Nat.testBit_lt_two_pow (by omega)
  unfold hasSquare at h
  rw [h2] at h
  exact Bool.noConfusion h

theorem ge_of_hasSquare (x j n : Nat) (hx : x % 2 ^ n = 0) (h : hasSquare x j) : n ≤ j := by
  by_contra hj
  have h1 : (x % 2 ^ n).testBit j = true := by
    rw [Nat.testBit_mod_two_pow, h]
    simp only [Bool.and_true, decide_eq_true_eq]
    omega
  rw [hx, Nat.zero_testBit] at h1
  exact Bool.noConfusion h1

theorem start_boards_disjoint (s : State) :
    (pieceBoards (init_board s)).Pairwise noCommonSquare := by
  have h : (pieceBoards (init_board s)).Pairwise (fun a b => a &&& b = 0) := by
    rw [pieceBoards_init_board]
    decide
  exact h.imp (fun {a b} hab => noCommonSquare_of_land a b hab)

theorem start_black_on_home_ranks (s : State) : blackOnHomeRanks (init_board s) := by
  intro b hb sq h
  have hb2 : b % 2 ^ 48 = 0 := by
    simp only [blackBoards, init_board, List.mem_cons, List.mem_singleton, List.not_mem_nil,
      or_false] at hb
    rcases hb with rfl | rfl | rfl | rfl | rfl | rfl <;> decide
  exact ge_of_hasSquare b sq 48 hb2 h

theorem start_white_on_home_ranks (s : State) : whiteOnHomeRanks (init_board s) := by
  intro b hb sq h
  have hb2 : b < 2 ^ 16 := by
    simp only [whiteBoards, init_board, List.mem_cons, List.mem_singleton, List.not_mem_nil,
      or_false] at hb
    rcases hb with rfl | rfl | rfl | rfl | rfl | rfl <;> decide
  exact lt_of_hasSquare b sq 16 hb2 h

theorem init_board_string_renders_witness :
    ((init_board zeroState)._board.length = BOARD_STRING_SIZE ∧
      blackOnHomeRanks (init_board zeroState) ∧ whiteOnHomeRanks (init_board zeroState) ∧
      (pieceBoards (init_board zeroState)).Pairwise noCommonSquare) ∧
    ∃ t, init_board_string (init_board zeroState) = some t ∧
      (∀ f r, f < 8 → r < 8 →
        ∃ c, t._board[cellIndex f r]? = some c ∧
          showsSquare (init_board zeroState) (8 * r + f) c ∧ c ≠ 'O') ∧
      cellIndex 0 7 = 123 ∧ cellIndex 1 7 = 130 ∧ cellIndex 0 6 = 123 + 236 :=
  ⟨⟨zeroState_board_length, start_black_on_home_ranks zeroState,
      start_white_on_home_ranks zeroState, start_boards_disjoint zeroState⟩,
    init_board_string_renders (init_board zeroState) zeroState_board_length
      (start_black_on_home_ranks zeroState) (start_white_on_home_ranks zeroState)
      (start_boards_disjoint zeroState)⟩

theorem init_board_string_frame_witness :
    zeroState._board.length = BOARD_STRING_SIZE ∧
    ∃ t, init_board_string zeroState = some t ∧
      t = { zeroState with _board := t._board } ∧
      t._board.length = BOARD_STRING_SIZE ∧
      (∀ idx, (∀ k f, k < 8 → f < 8 → idx ≠ 123 + 236 * k + 7 * f) →
        t._board[idx]? = zeroState._board[idx]?) ∧
      t._board[2004]? = zeroState._board[2004]? ∧
      (∀ k f, k < 8 → f < 8 →
        S_A8 ≤ 123 + 236 * k + 7 * f ∧ 123 + 236 * k + 7 * f ≤ S_H1 ∧
          123 + 236 * k + 7 * f < BOARD_STRING_SIZE) :=
  ⟨zeroState_board_length, init_board_string_frame zeroState zeroState_board_length⟩

/-! ## Masks -/

/-- C12: for every square index `i` below 64 and every `j` below 8, bit `i` of the
`j`-th file mask is set exactly when `i % 8 = j` and bit `i` of the `j`-th rank
mask exactly when `i / 8 = j`; the eight file masks are pairwise disjoint and
cover the 64 squares, and so do the eight rank masks. -/
theorem file_rank_masks_partition :
    (∀ (i : Fin 64) (j : Fin 8),
      (hasSquare (fileMasks.getD j.val 0) i.val ↔ i.val % 8 = j.val) ∧
      (hasSquare (rankMasks.getD j.val 0) i.val ↔ i.val / 8 = j.val)) ∧
    fileMasks.Pairwise noCommonSquare ∧ unionOf fileMasks = 2 ^ 64 - 1 ∧
    rankMasks.Pairwise noCommonSquare ∧ unionOf rankMasks = 2 ^ 64 - 1 := by
  have hf : fileMasks.Pairwise (fun a b => a &&& b = 0) := by decide
  have hr : rankMasks.Pairwise (fun a b => a &&& b = 0) := by decide
  exact ⟨by decide, hf.imp (fun {a b} hab => noCommonSquare_of_land a b hab), by decide,
    hr.imp (fun {a b} hab => noCommonSquare_of_land a b hab), by decide⟩

/-- C19: `WHITE_SQUARES` and `BLACK_SQUARES` are disjoint and together cover the 64
squares; bit `i` of `WHITE_SQUARES` is set exactly when `i % 8 + i / 8` is odd;
h1 and a8 are in `WHITE_SQUARES`, a1 and h8 in `BLACK_SQUARES`. -/
theorem square_colour_masks_partition :
    noCommonSquare WHITE_SQUARES BLACK_SQUARES ∧
    WHITE_SQUARES ||| BLACK_SQUARES = 2 ^ 64 - 1 ∧
    (∀ i : Fin 64, hasSquare WHITE_SQUARES i.val ↔ (i.val % 8 + i.val / 8) % 2 = 1) ∧
    (∀ i : Fin 64, hasSquare BLACK_SQUARES i.val ↔ (i.val % 8 + i.val / 8) % 2 = 0) ∧
    hasSquare WHITE_SQUARES 7 ∧ hasSquare WHITE_SQUARES 56 ∧
    hasSquare BLACK_SQUARES 0 ∧ hasSquare BLACK_SQUARES 63 :=
  ⟨noCommonSquare_of_land _ _ (by decide), by decide, by decide, by decide, by decide,
    by decide, by decide, by decide⟩

/-! ## Game state at program start -/

/-- C11 (the code at the failing input): after `init_board` on the
zero-initialised globals `_player` is 0, which is not `PLAYER_WHITE`, and
`_canCastle` is 0, so none of its four low bits is set; `_enPassant` and
`_50MoveRuleCount` are 0. -/
theorem program_start_side_and_castling_unset :
    (init_board zeroState)._player = 0 ∧
    (init_board zeroState)._player ≠ PLAYER_WHITE ∧
    (init_board zeroState)._canCastle = 0 ∧
    (∀ k : Fin 4, ¬ hasSquare (init_board zeroState)._canCastle k.val) ∧
    (init_board zeroState)._enPassant = 0 ∧
    (init_board zeroState)._50MoveRuleCount = 0 := by
  decide

/-! ## Pawn moves and the bit helpers -/

/-- C15 (the code at the failing input): from the standard starting position with
White to move, `gen_PawnMoves` returns the eight rank-4 squares, none of which
holds a white pawn: the result is not a subset of `_wPawns`. -/
theorem gen_PawnMoves_start_not_source_squares :
    gen_PawnMoves startWhite = some 0xff000000 ∧
    ∀ f : Fin 8,
      hasSquare 0xff000000 (24 + f.val) ∧ ¬ hasSquare startWhite._wPawns (24 + f.val) := by
  decide

theorem shlInt_one (x : Nat) (hx : x < 31) : shlInt 1 x = some (2 ^ x) := by
  have h1 : 1 <<< x = 2 ^ x := by rw [Nat.shiftLeft_eq, Nat.one_mul]
  have h2 : 2 ^ x < 2 ^ 31 := Nat.pow_lt_pow_right (by decide) hx
  simp only [shlInt, h1, h2, and_true, if_pos (show x < 32 by omega)]

theorem getBitPos_low (var x : Nat) (hx : x < 31) :
    ∃ r, getBitPos var x = some r ∧ (0 < r ↔ hasSquare var x) := by
  refine ⟨var &&& 2 ^ x, ?_, ?_⟩
  · simp only [getBitPos, shlInt_one x hx]
    rfl
  · rw [Nat.pos_iff_ne_zero, land_two_pow_ne_zero_iff]

theorem setBitPos_low (var x : Nat) (hx : x < 31) :
    ∃ r, setBitPos var x = some r ∧ hasSquare r x ∧
      ∀ i, i ≠ x → (hasSquare r i ↔ hasSquare var i) := by
  refine ⟨var ||| 2 ^ x, ?_, ?_, ?_⟩
  · simp only [setBitPos, shlInt_one x hx]
    rfl
  · unfold hasSquare
    rw [Nat.testBit_or, Nat.testBit_two_pow_self, Bool.or_true]
  · intro i hi
    unfold hasSquare
    rw [Nat.testBit_or, Nat.testBit_two_pow]
    simp [Ne.symm hi]

/-- C16 (the code at the failing input): bit 40 of `2 ^ 40` is set, but
`getBitPos` shifts the `int` constant `1`, and a shift of an `int` by 40 is
undefined; the same holds for every `x` from 31 to 63. -/
theorem getBitPos_high_undefined :
    hasSquare (2 ^ 40) 40 ∧ getBitPos (2 ^ 40) 40 = none ∧
    ∀ x : Fin 64, 31 ≤ x.val → getBitPos (2 ^ 40) x.val = none := by
  decide

/-- C17 (the code at the failing input): `clearBitPos` on the value 3 with `x = 1`
leaves 0, so bit 0 is cleared as well; on `2 ^ 40 + 1` with `x = 0` it leaves 0,
so bit 40 is cleared as well: the mask `~1u << x` is a 32-bit value with every bit
below `x` and every bit from 32 up clear. -/
theorem clearBitPos_clears_other_bits :
    clearBitPos 3 1 = some 0 ∧ hasSquare 3 0 ∧ ¬ hasSquare 0 0 ∧
    clearBitPos (2 ^ 40 + 1) 0 = some 0 ∧ hasSquare (2 ^ 40 + 1) 40 ∧ ¬ hasSquare 0 40 ∧
    ∀ x : Fin 64, 32 ≤ x.val → clearBitPos (2 ^ 40 + 1) x.val = none := by
  decide

/-- C18 (the code at the failing input): `setBitPos` shifts the `int` constant
`1`, and a shift of an `int` by 40 is undefined, so no value is produced for
`x = 40`; the same holds for every `x` from 31 to 63. -/
theorem setBitPos_high_undefined :
    setBitPos 0 40 = none ∧ ∀ x : Fin 64, 31 ≤ x.val → setBitPos 0 x.val = none := by
  decide

end CChess
